import Mathlib

/-!
Verification development for the random data-set generator
(src/python/bin/genDataSet.py): a shallow embedding of its tree
construction, chunk generation, naming, writing and verification logic,
together with theorems about the properties the design document states.

Modelling conventions:
- Python ints are `Int`; byte values are `Nat`; byte strings are `List Nat`.
- The numpy pseudo-random generator is an oracle: a structure of state
  transformers together with the range facts the numpy API guarantees
  (a draw from randint(n) is below n, random_integers(a, b) is in [a, b],
  bytes(n) has length n).  Every run that fixes the oracle and the seed is
  deterministic, exactly as numpy is for a fixed seed.
- Python 3 runtime errors that the source can raise are modelled with an
  explicit exception type threaded through Except.  In particular, in
  Python 3, str + int raises TypeError, writing a str to a file opened in
  binary mode raises TypeError, and bytes has no encode method, so
  bytes.encode raises AttributeError; the helpers below record
  those facts where genDataSet.py performs exactly those operations.
- IEEE-754 double arithmetic in generateChunks
  (int(math.floor(chunkSize * (rate / 100.0)))) is modelled exactly with
  integer arithmetic: fl64frac rounds a positive fraction to the nearest
  binary64 value (ties to even) in the normal range, which covers every
  value the generator can produce for the sizes admitted by the theorems.
-/

/-- Python 3 exceptions that the modelled code can raise.  genError models
the module exception class Error; typeError and attributeError model the
built-in TypeError and AttributeError. -/
inductive PyExc where
  | typeError
  | attributeError
  | fsError
  | genError (msg : String)
deriving DecidableEq

deriving instance DecidableEq for Except

/-- Python 3 evaluation of str + int: always raises TypeError (the source
writes "MaxDirDepth must be positive: " + gen.dirs.maxDepth with an int
on the right). -/
def pyStrAddInt (_s : String) (_n : ℤ) : Except PyExc String :=
  .error .typeError

/-- Python 3 evaluation of bytes.encode: bytes has no encode method, so
attribute lookup raises AttributeError (the source writes
expected.encode on a bytes value when logging a content mismatch). -/
def pyBytesEncodeHex (_b : List ℕ) : Except PyExc String :=
  .error .attributeError

/-- Python 3 evaluation of file.write with a str argument on a file opened
in binary mode: raises TypeError (the source writes file.write with the
one-character str NUL in FileNode.truncate). -/
def pyWriteStrToBinaryFile : Except PyExc Unit :=
  .error .typeError

/-- Oracle interface for numpy.random.RandomState as extended by the
source class RandomState.  initFn models RandomState(seed); randintFn
models randint(n) as used by choice; randIntegersFn models
random_integers(a, b) (inclusive bounds); randomSeedFn models
randomSeed(); bytesFn models bytes(n).  The three facts are the numpy API
guarantees the source relies on. -/
structure RNG (σ : Type) where
  initFn : ℤ → σ
  randintFn : σ → ℕ → ℕ × σ
  randIntegersFn : σ → ℤ → ℤ → ℤ × σ
  randomSeedFn : σ → ℤ × σ
  bytesFn : σ → ℕ → List ℕ × σ
  randint_lt : ∀ s n, 0 < n → (randintFn s n).1 < n
  randIntegers_mem : ∀ s a b, a ≤ b →
    a ≤ (randIntegersFn s a b).1 ∧ (randIntegersFn s a b).1 ≤ b
  bytes_len : ∀ s n, (bytesFn s n).1.length = n

/-- Trivial oracle used to evaluate the model on concrete inputs: every
draw returns the least admissible value and every byte is zero. -/
def zeroRNG : RNG Unit where
  initFn _ := ()
  randintFn _ _ := (0, ())
  randIntegersFn _ a _ := (a, ())
  randomSeedFn _ := (0, ())
  bytesFn _ n := (List.replicate n 0, ())
  randint_lt := by intro s n h; simpa using h
  randIntegers_mem := by intro s a b h; exact ⟨le_refl a, h⟩
  bytes_len := by intro s n; simp

/-! ### Exact model of the binary64 arithmetic in generateChunks -/

/-- Round half to even of the fraction a / b, for b > 0: the integer
nearest to a / b, with ties going to the even integer. -/
def rneDiv (a b : ℤ) : ℤ :=
  if 2 * a.fmod b < b then a.fdiv b
  else if b < 2 * a.fmod b then a.fdiv b + 1
  else if a.fdiv b % 2 = 0 then a.fdiv b else a.fdiv b + 1

/-- Fuel-driven floor of log2; log2f n n computes Nat.log 2 n but by
structural recursion, so that the kernel can evaluate it. -/
def log2f : ℕ → ℕ → ℕ
  | 0, _ => 0
  | fuel + 1, n => if n ≤ 1 then 0 else log2f fuel (n / 2) + 1

/-- Floor of log2 of a positive natural number. -/
def natLog2 (n : ℕ) : ℕ := log2f n n

/-- Ceiling of log2 of a positive natural number. -/
def natClog2 (n : ℕ) : ℕ :=
  if 2 ^ natLog2 n = n then natLog2 n else natLog2 n + 1

/-- Floor of log2 of the fraction n / d of two positive naturals, as an
integer (negative when n < d). -/
def fracLog2 (n d : ℕ) : ℤ :=
  if d ≤ n then (natLog2 (n / d) : ℤ)
  else - (natClog2 ((d + n - 1) / n) : ℤ)

/-- Binary64 rounding (round to nearest, ties to even) of the positive
fraction n / d, in the normal range: the result (m, s) denotes the value
m / 2 ^ s, with 2 ^ 52 ≤ m ≤ 2 ^ 53 whenever 0 < n and 0 < d.
Nonpositive input returns the exact zero.  Subnormal underflow and
overflow are outside the range used by the generator and are not
modelled. -/
def fl64frac (n d : ℤ) : ℤ × ℤ :=
  if n ≤ 0 ∨ d ≤ 0 then (0, 0)
  else if 0 ≤ 52 - fracLog2 n.toNat d.toNat then
    (rneDiv (n * 2 ^ (52 - fracLog2 n.toNat d.toNat).toNat) d,
      52 - fracLog2 n.toNat d.toNat)
  else
    (rneDiv n (d * 2 ^ (-(52 - fracLog2 n.toNat d.toNat)).toNat),
      52 - fracLog2 n.toNat d.toNat)

/-- Numerator and denominator of c * (m / 2 ^ s) as a plain fraction. -/
def mulFrac (c m s : ℤ) : ℤ × ℤ :=
  if 0 ≤ s then (c * m, 2 ^ s.toNat) else (c * m * 2 ^ (-s).toNat, 1)

/-- Floor of the value m / 2 ^ s. -/
def floorFrac (m s : ℤ) : ℤ :=
  if 0 ≤ s then m.fdiv (2 ^ s.toNat) else m * 2 ^ (-s).toNat

/-- Model of the compressible-byte count computed by
FileNode.generateChunks: int(math.floor(chunkSize * (rate / 100.0)))
where rate = float(percentage), evaluated in IEEE-754 double
precision: the division by 100.0 rounds to binary64, the product with
chunkSize rounds to binary64, then the floor is taken exactly. -/
def compressSize (pct chunkSize : ℤ) : ℤ :=
  floorFrac
    (fl64frac (mulFrac chunkSize (fl64frac pct 100).1 (fl64frac pct 100).2).1
      (mulFrac chunkSize (fl64frac pct 100).1 (fl64frac pct 100).2).2).1
    (fl64frac (mulFrac chunkSize (fl64frac pct 100).1 (fl64frac pct 100).2).1
      (mulFrac chunkSize (fl64frac pct 100).1 (fl64frac pct 100).2).2).2

/-- Maximum chunk size constant MAX_CHUNK_SIZE = 64 * KB. -/
def MAX_CHUNK_SIZE : ℤ := 65536

/-- Body of the while loop of FileNode.generateChunks.  The fuel argument
only bounds the number of iterations: each iteration consumes at least
one byte of remaining whenever maxCS is at least 1, so fuel
remaining.toNat makes the recursion equal to the source loop. -/
def chunksLoop {σ : Type} (R : RNG σ) (pct maxCS : ℤ) :
    ℕ → ℤ → σ → List (List ℕ)
  | 0, _, _ => []
  | fuel + 1, remaining, s =>
    if remaining ≤ 0 then []
    else
      (List.replicate (compressSize pct (min remaining maxCS)).toNat 255 ++
        (R.bytesFn s (min remaining maxCS -
          compressSize pct (min remaining maxCS)).toNat).1) ::
        chunksLoop R pct maxCS fuel (remaining - min remaining maxCS)
          (R.bytesFn s (min remaining maxCS -
            compressSize pct (min remaining maxCS)).toNat).2

/-- Model of FileNode.generateChunks: a fresh RandomState(fileSeed)
drives the content bytes; the effective chunk size is
int(blockSize) when float(percentage) > 0 and MAX_CHUNK_SIZE
otherwise. -/
def generateChunks {σ : Type} (R : RNG σ) (fileSeed fileSize pct blockSize : ℤ) :
    List (List ℕ) :=
  chunksLoop R pct (if 0 < pct then blockSize else MAX_CHUNK_SIZE)
    fileSize.toNat fileSize (R.initFn fileSeed)

/-- Chunk sizes as the specification states them: while bytes remain,
the next chunk has size min(remaining, effective chunk size). -/
def specChunkSizes (effective : ℤ) : ℕ → ℤ → List ℤ
  | 0, _ => []
  | fuel + 1, remaining =>
    if remaining ≤ 0 then []
    else min remaining effective ::
      specChunkSizes effective fuel (remaining - min remaining effective)

/-! ### Arithmetic facts about the binary64 model -/

theorem log2f_spec : ∀ fuel n, 1 ≤ n → n ≤ fuel →
    2 ^ log2f fuel n ≤ n ∧ n < 2 ^ (log2f fuel n + 1) := by
  intro fuel
  induction fuel with
  | zero => omega
  | succ f ih =>
    intro n h1 h2
    rw [log2f]
    by_cases hn : n ≤ 1
    · simp only [hn, if_true]
      omega
    · simp only [hn, if_false]
      have h3 : 1 ≤ n / 2 := by omega
      have h4 : n / 2 ≤ f := by omega
      obtain ⟨l, u⟩ := ih (n / 2) h3 h4
      constructor
      · calc 2 ^ (log2f f (n / 2) + 1) = 2 ^ log2f f (n / 2) * 2 := by ring
        _ ≤ n / 2 * 2 := by omega
        _ ≤ n := by omega
      · calc n < n / 2 * 2 + 2 := by omega
        _ ≤ 2 ^ (log2f f (n / 2) + 1) * 2 := by omega
        _ = 2 ^ (log2f f (n / 2) + 1 + 1) := by ring

theorem natLog2_spec {n : ℕ} (h : 1 ≤ n) :
    2 ^ natLog2 n ≤ n ∧ n < 2 ^ (natLog2 n + 1) :=
  log2f_spec n n h (le_refl n)

theorem natClog2_le {n : ℕ} (h : 1 ≤ n) : n ≤ 2 ^ natClog2 n := by
  rw [natClog2]
  by_cases he : 2 ^ natLog2 n = n
  · simp only [he, if_true]
    omega
  · simp only [he, if_false]
    exact le_of_lt (natLog2_spec h).2

theorem natLog2_pos {n : ℕ} (h : 2 ≤ n) : 1 ≤ natLog2 n := by
  have hs := natLog2_spec (by omega : 1 ≤ n)
  rcases Nat.eq_zero_or_pos (natLog2 n) with h0 | h0
  · rw [h0] at hs
    simp only [pow_zero, zero_add, pow_one] at hs
    omega
  · exact h0

theorem natClog2_lt {n : ℕ} (h : 2 ≤ n) : 2 ^ (natClog2 n - 1) < n := by
  have hs := natLog2_spec (by omega : 1 ≤ n)
  have hp : 1 ≤ natLog2 n := natLog2_pos h
  unfold natClog2
  by_cases he : 2 ^ natLog2 n = n
  · simp only [he, if_true]
    have hlt : 2 ^ (natLog2 n - 1) < 2 ^ natLog2 n :=
      Nat.pow_lt_pow_right (by omega) (by omega)
    omega
  · simp only [he, if_false, Nat.add_sub_cancel]
    omega

theorem natClog2_pos {n : ℕ} (h : 2 ≤ n) : 1 ≤ natClog2 n := by
  have hp := natLog2_pos h
  unfold natClog2
  split <;> omega

theorem fracLog2_spec {n d : ℕ} (hn : 1 ≤ n) (hd : 1 ≤ d) :
    (2 : ℚ) ^ (fracLog2 n d) ≤ (n : ℚ) / d ∧
      (n : ℚ) / d < 2 ^ (fracLog2 n d + 1) := by
  have hdq : (0 : ℚ) < (d : ℚ) := by exact_mod_cast hd
  unfold fracLog2
  by_cases hc : d ≤ n
  · simp only [hc, if_true]
    have h1 : 1 ≤ n / d := (Nat.one_le_div_iff (by omega)).mpr hc
    obtain ⟨hl, hu⟩ := natLog2_spec h1
    have hdm := Nat.div_add_mod n d
    have hmod := Nat.mod_lt n (show 0 < d by omega)
    have c1 : ((2 : ℚ)) ^ natLog2 (n / d) ≤ ((n / d : ℕ) : ℚ) := by
      exact_mod_cast hl
    have c2 : ((n / d : ℕ) : ℚ) + 1 ≤ 2 ^ (natLog2 (n / d) + 1) := by
      have h2 : (n / d) + 1 ≤ 2 ^ (natLog2 (n / d) + 1) := hu
      exact_mod_cast h2
    have c3 : ((n / d : ℕ) : ℚ) * d ≤ (n : ℚ) := by
      have h3 : (n / d) * d ≤ n := Nat.div_mul_le_self n d
      exact_mod_cast h3
    have c4 : (n : ℚ) < ((n / d : ℕ) : ℚ) * d + d := by
      have h4 : n < (n / d) * d + d := by
        have h5 : d * (n / d) = (n / d) * d := Nat.mul_comm d (n / d)
        omega
      exact_mod_cast h4
    constructor
    · rw [show ((natLog2 (n / d) : ℤ)) = ((natLog2 (n / d) : ℕ) : ℤ) from rfl,
        zpow_natCast, le_div_iff₀ hdq]
      nlinarith
    · rw [show ((natLog2 (n / d) : ℤ) + 1) = (((natLog2 (n / d) + 1 : ℕ)) : ℤ) by
        push_cast; ring, zpow_natCast, div_lt_iff₀ hdq]
      nlinarith
  · simp only [hc, if_false]
    have hnd : n < d := by omega
    have hc2 : 2 ≤ (d + n - 1) / n := by
      rw [Nat.le_div_iff_mul_le (by omega)]
      omega
    have hcle : (d + n - 1) / n ≤ 2 ^ natClog2 ((d + n - 1) / n) :=
      natClog2_le (by omega)
    have hm1 := natClog2_pos hc2
    have hdm := Nat.div_add_mod (d + n - 1) n
    have hmod := Nat.mod_lt (d + n - 1) (show 0 < n by omega)
    have ha : d ≤ n * 2 ^ natClog2 ((d + n - 1) / n) := by
      have hdc : d ≤ n * ((d + n - 1) / n) := by omega
      calc d ≤ n * ((d + n - 1) / n) := hdc
        _ ≤ n * 2 ^ natClog2 ((d + n - 1) / n) :=
          Nat.mul_le_mul_left n hcle
    have hb : n * 2 ^ (natClog2 ((d + n - 1) / n) - 1) < d := by
      have hlt := natClog2_lt hc2
      have hle : n * ((d + n - 1) / n) ≤ d + n - 1 := by
        have h6 := Nat.div_mul_le_self (d + n - 1) n
        have h7 : ((d + n - 1) / n) * n = n * ((d + n - 1) / n) :=
          Nat.mul_comm _ n
        omega
      have hsplit : n * ((d + n - 1) / n) = n * ((d + n - 1) / n - 1) + n := by
        have h8 : (d + n - 1) / n - 1 + 1 = (d + n - 1) / n := by omega
        calc n * ((d + n - 1) / n) = n * ((d + n - 1) / n - 1 + 1) := by rw [h8]
          _ = n * ((d + n - 1) / n - 1) + n := Nat.mul_succ n _
      have hnc : n * ((d + n - 1) / n - 1) < d := by omega
      calc n * 2 ^ (natClog2 ((d + n - 1) / n) - 1)
          ≤ n * ((d + n - 1) / n - 1) := by
            have h9 : 2 ^ (natClog2 ((d + n - 1) / n) - 1) ≤
                (d + n - 1) / n - 1 := by omega
            exact Nat.mul_le_mul_left n h9
        _ < d := hnc
    have haq : (d : ℚ) ≤ (n : ℚ) * 2 ^ natClog2 ((d + n - 1) / n) := by
      exact_mod_cast ha
    have hbq : (n : ℚ) * 2 ^ (natClog2 ((d + n - 1) / n) - 1) < (d : ℚ) := by
      exact_mod_cast hb
    have h2m : (0 : ℚ) < 2 ^ natClog2 ((d + n - 1) / n) := by positivity
    have h2m1 : (0 : ℚ) < 2 ^ (natClog2 ((d + n - 1) / n) - 1) := by positivity
    constructor
    · rw [zpow_neg, zpow_natCast, inv_eq_one_div, div_le_div_iff h2m hdq]
      nlinarith
    · have hexp : (-(natClog2 ((d + n - 1) / n) : ℤ) + 1) =
          -(((natClog2 ((d + n - 1) / n) - 1 : ℕ)) : ℤ) := by
        omega
      rw [hexp, zpow_neg, zpow_natCast, inv_eq_one_div,
        div_lt_div_iff hdq h2m1]
      nlinarith

theorem rneDiv_nonneg {a b : ℤ} (ha : 0 ≤ a) (hb : 0 < b) :
    0 ≤ rneDiv a b := by
  have hq := Int.fdiv_nonneg ha (le_of_lt hb)
  unfold rneDiv
  split_ifs <;> omega

theorem rneDiv_le {a b : ℤ} (hb : 0 < b) :
    (rneDiv a b : ℚ) ≤ (a : ℚ) / b + 1 / 2 := by
  have h1 := Int.fdiv_add_fmod a b
  have h2 := Int.fmod_nonneg' a hb
  have h3 := Int.fmod_lt_of_pos a hb
  have hbq : (0 : ℚ) < (b : ℚ) := by exact_mod_cast hb
  have h1q : (b : ℚ) * (a.fdiv b : ℚ) + (a.fmod b : ℚ) = (a : ℚ) := by
    exact_mod_cast h1
  have h2q : (0 : ℚ) ≤ (a.fmod b : ℚ) := by exact_mod_cast h2
  have h3q : (a.fmod b : ℚ) < (b : ℚ) := by exact_mod_cast h3
  unfold rneDiv
  rw [div_add_div _ _ (ne_of_gt hbq) (two_ne_zero), le_div_iff₀ (by positivity)]
  split_ifs with hc1 hc2 hc3
  · have hcq : 2 * (a.fmod b : ℚ) < (b : ℚ) := by exact_mod_cast hc1
    nlinarith
  · have hcq : (b : ℚ) < 2 * (a.fmod b : ℚ) := by exact_mod_cast hc2
    push_cast
    nlinarith
  · have hcq : 2 * (a.fmod b : ℚ) = (b : ℚ) := by
      have h4 : 2 * a.fmod b = b := by omega
      exact_mod_cast h4
    nlinarith
  · have hcq : 2 * (a.fmod b : ℚ) = (b : ℚ) := by
      have h4 : 2 * a.fmod b = b := by omega
      exact_mod_cast h4
    push_cast
    nlinarith

/-- Rational value denoted by a mantissa and binary exponent pair. -/
def fval (p : ℤ × ℤ) : ℚ := (p.1 : ℚ) / 2 ^ p.2

theorem fl64frac_num_nonneg (n d : ℤ) : 0 ≤ (fl64frac n d).1 := by
  unfold fl64frac
  by_cases h1 : n ≤ 0 ∨ d ≤ 0
  · rw [if_pos h1]
  · rw [if_neg h1]
    push_neg at h1
    by_cases hs : (0 : ℤ) ≤ 52 - fracLog2 n.toNat d.toNat
    · rw [if_pos hs]
      exact rneDiv_nonneg (mul_nonneg (by omega) (by positivity)) (by omega)
    · rw [if_neg hs]
      exact rneDiv_nonneg (by omega) (mul_pos (by omega) (by positivity))

theorem rne_scaled_le {m : ℤ} {q P : ℚ} (hP : 0 < P)
    (hm : (m : ℚ) ≤ q * P + 1 / 2) (hscale : (2 : ℚ) ^ (52 : ℕ) ≤ q * P) :
    (m : ℚ) / P ≤ q * (1 + 1 / 2 ^ 53) := by
  rw [div_le_iff₀ hP]
  have h2 : ((2 : ℚ) ^ (52 : ℕ)) * (1 / 2 ^ 53) = 1 / 2 := by norm_num
  have h3 : (0 : ℚ) ≤ 1 / 2 ^ 53 := by norm_num
  have hh : (1 : ℚ) / 2 ≤ q * P * (1 / 2 ^ 53) := by
    have h4 := mul_le_mul_of_nonneg_right hscale h3
    rw [h2] at h4
    exact h4
  nlinarith

theorem fl64frac_le {n d : ℤ} (hn : 1 ≤ n) (hd : 1 ≤ d) :
    fval (fl64frac n d) ≤ ((n : ℚ) / d) * (1 + 1 / 2 ^ 53) := by
  have hq : (0 : ℚ) < (n : ℚ) / d := by
    apply div_pos <;> [exact_mod_cast hn; exact_mod_cast hd]
  have hnn : ((n.toNat : ℕ) : ℚ) = (n : ℚ) := by
    have h0 : ((n.toNat : ℤ)) = n := Int.toNat_of_nonneg (by omega)
    exact_mod_cast h0
  have hdn : ((d.toNat : ℕ) : ℚ) = (d : ℚ) := by
    have h0 : ((d.toNat : ℤ)) = d := Int.toNat_of_nonneg (by omega)
    exact_mod_cast h0
  have hk := fracLog2_spec (n := n.toNat) (d := d.toNat) (by omega) (by omega)
  rw [hnn, hdn] at hk
  set k := fracLog2 n.toNat d.toNat with hkdef
  have hklow : (2 : ℚ) ^ k ≤ (n : ℚ) / d := hk.1
  have hdq : (0 : ℚ) < (d : ℚ) := by exact_mod_cast hd
  have hscale : (2 : ℚ) ^ (52 : ℕ) ≤ ((n : ℚ) / d) * 2 ^ (52 - k) := by
    have h7 : (2 : ℚ) ^ k * 2 ^ (52 - k) = 2 ^ (52 : ℕ) := by
      rw [← zpow_add₀ (by norm_num : (2 : ℚ) ≠ 0)]
      norm_num
    have h8 : (0 : ℚ) < (2 : ℚ) ^ (52 - k) := by positivity
    calc (2 : ℚ) ^ (52 : ℕ) = 2 ^ k * 2 ^ (52 - k) := h7.symm
      _ ≤ ((n : ℚ) / d) * 2 ^ (52 - k) := by nlinarith
  have hP : (0 : ℚ) < (2 : ℚ) ^ (52 - k) := by positivity
  unfold fl64frac
  rw [← hkdef]
  have hcond : ¬ (n ≤ 0 ∨ d ≤ 0) := by omega
  rw [if_neg hcond]
  by_cases hs : (0 : ℤ) ≤ 52 - k
  · rw [if_pos hs]
    have hPn : ((2 : ℚ)) ^ ((52 - k).toNat : ℕ) = (2 : ℚ) ^ (52 - k) := by
      rw [← zpow_natCast]
      congr 1
      omega
    have hm : ((rneDiv (n * 2 ^ (52 - k).toNat) d : ℤ) : ℚ) ≤
        ((n : ℚ) / d) * 2 ^ (52 - k) + 1 / 2 := by
      have h5 := rneDiv_le (a := n * 2 ^ (52 - k).toNat) (b := d)
        (by exact_mod_cast hd)
      have h6 : ((n * 2 ^ (52 - k).toNat : ℤ) : ℚ) = (n : ℚ) * 2 ^ (52 - k) := by
        push_cast
        rw [hPn]
      rw [h6] at h5
      calc ((rneDiv (n * 2 ^ (52 - k).toNat) d : ℤ) : ℚ)
          ≤ (n : ℚ) * 2 ^ (52 - k) / d + 1 / 2 := h5
        _ = ((n : ℚ) / d) * 2 ^ (52 - k) + 1 / 2 := by ring
    have hfin := rne_scaled_le hP hm hscale
    unfold fval
    exact hfin
  · rw [if_neg hs]
    have hBpos : (0 : ℤ) < d * 2 ^ (-(52 - k)).toNat := by
      exact mul_pos (by omega) (by positivity)
    have hPn : ((2 : ℚ)) ^ ((-(52 - k)).toNat : ℕ) = (2 : ℚ) ^ (k - 52) := by
      rw [← zpow_natCast]
      congr 1
      omega
    have hm : ((rneDiv n (d * 2 ^ (-(52 - k)).toNat) : ℤ) : ℚ) ≤
        ((n : ℚ) / d) * 2 ^ (52 - k) + 1 / 2 := by
      have h5 := rneDiv_le (a := n) (b := d * 2 ^ (-(52 - k)).toNat) hBpos
      have h6 : ((d * 2 ^ (-(52 - k)).toNat : ℤ) : ℚ) =
          (d : ℚ) * 2 ^ (k - 52) := by
        push_cast
        rw [hPn]
      rw [h6] at h5
      have h8 : (n : ℚ) / ((d : ℚ) * 2 ^ (k - 52)) =
          ((n : ℚ) / d) * 2 ^ (52 - k) := by
        rw [div_mul_eq_div_div, div_eq_mul_inv ((n : ℚ) / d), ← zpow_neg]
        congr 2
        omega
      rw [h8] at h5
      exact h5
    have hfin := rne_scaled_le hP hm hscale
    unfold fval
    exact hfin

theorem mulFrac_den_pos (c m s : ℤ) : 0 < (mulFrac c m s).2 := by
  unfold mulFrac
  split_ifs <;> positivity

theorem mulFrac_val (c m s : ℤ) :
    ((mulFrac c m s).1 : ℚ) / ((mulFrac c m s).2 : ℚ) = (c : ℚ) * fval (m, s) := by
  unfold mulFrac fval
  split_ifs with h
  · have hPn : ((2 : ℚ)) ^ (s.toNat : ℕ) = (2 : ℚ) ^ s := by
      rw [← zpow_natCast]
      congr 1
      omega
    push_cast
    rw [hPn]
    ring
  · have hPn : ((2 : ℚ)) ^ ((-s).toNat : ℕ) = (2 : ℚ) ^ (-s) := by
      rw [← zpow_natCast]
      congr 1
      omega
    push_cast
    rw [hPn]
    field_simp

theorem floorFrac_nonneg {m : ℤ} (s : ℤ) (hm : 0 ≤ m) : 0 ≤ floorFrac m s := by
  unfold floorFrac
  split_ifs
  · exact Int.fdiv_nonneg hm (by positivity)
  · exact mul_nonneg hm (by positivity)

theorem floorFrac_le_val (m s : ℤ) : ((floorFrac m s : ℤ) : ℚ) ≤ fval (m, s) := by
  unfold floorFrac fval
  split_ifs with h
  · have hb : (0 : ℤ) < 2 ^ s.toNat := by positivity
    have h1 := Int.fdiv_add_fmod m (2 ^ s.toNat)
    have h2 := Int.fmod_nonneg' m hb
    have hPn : ((2 : ℚ)) ^ (s.toNat : ℕ) = (2 : ℚ) ^ s := by
      rw [← zpow_natCast]
      congr 1
      omega
    have hbq : (0 : ℚ) < (2 : ℚ) ^ s := by positivity
    rw [le_div_iff₀ hbq]
    have h3 : (2 ^ s.toNat : ℤ) * m.fdiv (2 ^ s.toNat) ≤ m := by omega
    have h4 : ((2 ^ s.toNat : ℤ) : ℚ) * ((m.fdiv (2 ^ s.toNat) : ℤ) : ℚ) ≤
        (m : ℚ) := by exact_mod_cast h3
    push_cast at h4
    rw [hPn] at h4
    linarith
  · have hPn : ((2 : ℚ)) ^ ((-s).toNat : ℕ) = (2 : ℚ) ^ (-s) := by
      rw [← zpow_natCast]
      congr 1
      omega
    have h2 : (2 : ℚ) ^ (-s) * 2 ^ s = 1 := by
      rw [← zpow_add₀ (by norm_num : (2 : ℚ) ≠ 0)]
      norm_num
    have hbq : (0 : ℚ) < (2 : ℚ) ^ s := by positivity
    rw [le_div_iff₀ hbq]
    push_cast
    rw [hPn]
    calc (m : ℚ) * 2 ^ (-s) * 2 ^ s = (m : ℚ) * (2 ^ (-s) * 2 ^ s) := by ring
      _ ≤ (m : ℚ) := by rw [h2, mul_one]

theorem compressSize_nonneg (pct C : ℤ) : 0 ≤ compressSize pct C := by
  unfold compressSize
  exact floorFrac_nonneg _ (fl64frac_num_nonneg _ _)

theorem compressSize_le {pct C : ℤ} (hp0 : 0 ≤ pct) (hp1 : pct ≤ 100)
    (hC0 : 0 < C) (hC : C ≤ 2 ^ 51) : compressSize pct C ≤ C := by
  unfold compressSize
  by_cases hp : pct ≤ 0
  · have hpz : pct = 0 := by omega
    subst hpz
    have h0 : fl64frac 0 100 = (0, 0) := by
      unfold fl64frac
      norm_num
    rw [h0]
    have h1 : mulFrac C 0 0 = (0, 1) := by
      unfold mulFrac
      norm_num
    rw [h1]
    have h2 : fl64frac 0 1 = (0, 0) := by
      unfold fl64frac
      norm_num
    rw [h2]
    have h3 : floorFrac 0 0 = 0 := by decide
    rw [h3]
    omega
  · push_neg at hp
    have hr := fl64frac_le (n := pct) (d := 100) (by omega) (by norm_num)
    have hrn := fl64frac_num_nonneg pct 100
    by_cases hm : (fl64frac pct 100).1 ≤ 0
    · have hm0 : (fl64frac pct 100).1 = 0 := by omega
      have h1 : (mulFrac C (fl64frac pct 100).1 (fl64frac pct 100).2).1 = 0 := by
        unfold mulFrac
        rw [hm0]
        split_ifs <;> ring
      have h2 : fl64frac 0 (mulFrac C (fl64frac pct 100).1
          (fl64frac pct 100).2).2 = (0, 0) := by
        unfold fl64frac
        norm_num
      rw [h1, h2]
      have h3 : floorFrac 0 0 = 0 := by decide
      rw [h3]
      omega
    · push_neg at hm
      have hx2 := mulFrac_den_pos C (fl64frac pct 100).1 (fl64frac pct 100).2
      have hx1 : 1 ≤ (mulFrac C (fl64frac pct 100).1 (fl64frac pct 100).2).1 := by
        unfold mulFrac
        split_ifs
        · show (1 : ℤ) ≤ C * (fl64frac pct 100).1
          nlinarith
        · show (1 : ℤ) ≤ C * (fl64frac pct 100).1 * 2 ^ (-(fl64frac pct 100).2).toNat
          have hpow0 : (0 : ℤ) < 2 ^ (-(fl64frac pct 100).2).toNat :=
            pow_pos (by norm_num) _
          have hpow : (1 : ℤ) ≤ 2 ^ (-(fl64frac pct 100).2).toNat := by omega
          have hcr : (1 : ℤ) ≤ C * (fl64frac pct 100).1 := by nlinarith
          have h12 : (1 : ℤ) * 1 ≤ (C * (fl64frac pct 100).1) *
              2 ^ (-(fl64frac pct 100).2).toNat :=
            mul_le_mul hcr hpow (by norm_num) (by nlinarith)
          simpa using h12
      have hxval := mulFrac_val C (fl64frac pct 100).1 (fl64frac pct 100).2
      have hy := fl64frac_le (n := (mulFrac C (fl64frac pct 100).1
          (fl64frac pct 100).2).1) (d := (mulFrac C (fl64frac pct 100).1
          (fl64frac pct 100).2).2) hx1 (by omega)
      have hfl := floorFrac_le_val (fl64frac (mulFrac C (fl64frac pct 100).1
          (fl64frac pct 100).2).1 (mulFrac C (fl64frac pct 100).1
          (fl64frac pct 100).2).2).1 (fl64frac (mulFrac C (fl64frac pct 100).1
          (fl64frac pct 100).2).1 (mulFrac C (fl64frac pct 100).1
          (fl64frac pct 100).2).2).2
      have hCq : (C : ℚ) ≤ 2 ^ 51 := by exact_mod_cast hC
      have hC0q : (0 : ℚ) < (C : ℚ) := by exact_mod_cast hC0
      have hpq : (pct : ℚ) / 100 ≤ 1 := by
        rw [div_le_one (by norm_num : (0:ℚ) < 100)]
        exact_mod_cast hp1
      have hp0q : (0 : ℚ) < (pct : ℚ) / 100 := by
        apply div_pos (by exact_mod_cast hp) (by norm_num)
      have heps : (0 : ℚ) < 1 + 1 / 2 ^ 53 := by norm_num
      have hfr0 : (0 : ℚ) ≤ fval ((fl64frac pct 100).1, (fl64frac pct 100).2) := by
        unfold fval
        apply div_nonneg (by exact_mod_cast hrn) (by positivity)
      have step1 : fval (fl64frac (mulFrac C (fl64frac pct 100).1
          (fl64frac pct 100).2).1 (mulFrac C (fl64frac pct 100).1
          (fl64frac pct 100).2).2) ≤ (C : ℚ) * (1 + 1 / 2 ^ 53) ^ 2 := by
      -- chain: fval y ≤ (x1 / x2) * (1 + eps) = C * fval r * (1 + eps)
      --        ≤ C * (pct / 100) * (1 + eps) ^ 2 ≤ C * (1 + eps) ^ 2
        calc fval (fl64frac (mulFrac C (fl64frac pct 100).1
            (fl64frac pct 100).2).1 (mulFrac C (fl64frac pct 100).1
            (fl64frac pct 100).2).2)
            ≤ (((mulFrac C (fl64frac pct 100).1 (fl64frac pct 100).2).1 : ℚ) /
              ((mulFrac C (fl64frac pct 100).1 (fl64frac pct 100).2).2 : ℚ)) *
              (1 + 1 / 2 ^ 53) := hy
          _ = (C : ℚ) * fval ((fl64frac pct 100).1, (fl64frac pct 100).2) *
              (1 + 1 / 2 ^ 53) := by rw [hxval]
          _ ≤ (C : ℚ) * ((pct : ℚ) / 100 * (1 + 1 / 2 ^ 53)) *
              (1 + 1 / 2 ^ 53) := by nlinarith
          _ ≤ (C : ℚ) * (1 + 1 / 2 ^ 53) ^ 2 := by nlinarith
      have hkey : (C : ℚ) * (1 + 1 / 2 ^ 53) ^ 2 < (C : ℚ) + 1 := by
        have e2 : (2 : ℚ) ^ 51 * (2 * (1 / 2 ^ 53) + (1 / 2 ^ 53) ^ 2) < 1 := by
          norm_num
        nlinarith
      have hlast : ((floorFrac (fl64frac (mulFrac C (fl64frac pct 100).1
          (fl64frac pct 100).2).1 (mulFrac C (fl64frac pct 100).1
          (fl64frac pct 100).2).2).1 (fl64frac (mulFrac C (fl64frac pct 100).1
          (fl64frac pct 100).2).1 (mulFrac C (fl64frac pct 100).1
          (fl64frac pct 100).2).2).2 : ℤ) : ℚ) < (C : ℚ) + 1 := by
        calc ((floorFrac _ _ : ℤ) : ℚ) ≤ _ := hfl
          _ ≤ (C : ℚ) * (1 + 1 / 2 ^ 53) ^ 2 := step1
          _ < (C : ℚ) + 1 := hkey
      have : (floorFrac (fl64frac (mulFrac C (fl64frac pct 100).1
          (fl64frac pct 100).2).1 (mulFrac C (fl64frac pct 100).1
          (fl64frac pct 100).2).2).1 (fl64frac (mulFrac C (fl64frac pct 100).1
          (fl64frac pct 100).2).1 (mulFrac C (fl64frac pct 100).1
          (fl64frac pct 100).2).2).2) < C + 1 := by exact_mod_cast hlast
      omega

theorem chunksLoop_lens {σ : Type} (R : RNG σ) (pct maxCS : ℤ)
    (hp0 : 0 ≤ pct) (hp1 : pct ≤ 100) (hmax : 1 ≤ maxCS) :
    ∀ (fuel : ℕ) (remaining : ℤ) (s : σ), 0 ≤ remaining →
      remaining ≤ (fuel : ℤ) → remaining ≤ 2 ^ 51 →
      (chunksLoop R pct maxCS fuel remaining s).map
          (fun c => (c.length : ℤ)) = specChunkSizes maxCS fuel remaining ∧
      ((chunksLoop R pct maxCS fuel remaining s).flatten).length =
        remaining.toNat := by
  intro fuel
  induction fuel with
  | zero =>
    intro remaining s h0 hf h51
    have hz : remaining = 0 := by exact_mod_cast le_antisymm hf h0
    subst hz
    simp [chunksLoop, specChunkSizes]
  | succ f ih =>
    intro remaining s h0 hf h51
    rw [chunksLoop, specChunkSizes]
    by_cases hr : remaining ≤ 0
    · simp [hr]
      omega
    · simp only [hr, if_false]
      push_neg at hr
      have hcs1 : 1 ≤ min remaining maxCS := le_min (by omega) hmax
      have hcs2 : min remaining maxCS ≤ remaining := min_le_left _ _
      have hc0 := compressSize_nonneg pct (min remaining maxCS)
      have hcle := compressSize_le hp0 hp1 (show 0 < min remaining maxCS by
        omega) (by omega)
      have hblen := R.bytes_len s (min remaining maxCS -
        compressSize pct (min remaining maxCS)).toNat
      have hlen : (List.replicate (compressSize pct
          (min remaining maxCS)).toNat 255 ++
          (R.bytesFn s (min remaining maxCS -
            compressSize pct (min remaining maxCS)).toNat).1).length =
          (min remaining maxCS).toNat := by
        rw [List.length_append, List.length_replicate, hblen]
        omega
      obtain ⟨ihm, ihj⟩ := ih (remaining - min remaining maxCS)
        (R.bytesFn s (min remaining maxCS -
          compressSize pct (min remaining maxCS)).toNat).2
        (by omega) (by omega) (by omega)
      constructor
      · rw [List.map_cons, ihm, hlen]
        congr 1
        omega
      · rw [List.flatten_cons, List.length_append, hlen, ihj]
        omega

theorem chunksLoop_shape {σ : Type} (R : RNG σ) (pct maxCS : ℤ)
    (hp0 : 0 ≤ pct) (hp1 : pct ≤ 100) (hmax : 1 ≤ maxCS) :
    ∀ (fuel : ℕ) (remaining : ℤ) (s : σ), 0 ≤ remaining →
      remaining ≤ 2 ^ 51 →
      ∀ ch ∈ chunksLoop R pct maxCS fuel remaining s, ∃ s1,
        ch = List.replicate (compressSize pct (ch.length : ℤ)).toNat 255 ++
          (R.bytesFn s1 ((ch.length : ℤ) -
            compressSize pct (ch.length : ℤ)).toNat).1 := by
  intro fuel
  induction fuel with
  | zero =>
    intro remaining s h0 h51 ch hch
    simp [chunksLoop] at hch
  | succ f ih =>
    intro remaining s h0 h51 ch hch
    rw [chunksLoop] at hch
    by_cases hr : remaining ≤ 0
    · simp [hr] at hch
    · simp only [hr, if_false, List.mem_cons] at hch
      rcases hch with hch | hch
      · refine ⟨s, ?_⟩
        have hcs1 : 1 ≤ min remaining maxCS := le_min (by omega) hmax
        have hc0 := compressSize_nonneg pct (min remaining maxCS)
        have hcle := compressSize_le hp0 hp1 (show 0 < min remaining maxCS by
          omega) (by omega)
        have hblen := R.bytes_len s (min remaining maxCS -
          compressSize pct (min remaining maxCS)).toNat
        have hlen : (ch.length : ℤ) = min remaining maxCS := by
          rw [hch, List.length_append, List.length_replicate, hblen]
          push_cast
          omega
        rw [hlen, hch]
      · have hcs2 : min remaining maxCS ≤ remaining := min_le_left _ _
        have hcs1 : 1 ≤ min remaining maxCS := le_min (by omega) hmax
        exact ih (remaining - min remaining maxCS) _ (by omega) (by omega)
          ch hch

/-- C4: for every file the Chunk Generator yields a finite sequence of
chunks whose sizes are min(remaining, effective chunk size) with the
effective size equal to blockSize when percentage > 0 and the fixed
64 KiB constant otherwise, and whose concatenation has exactly fileSize
bytes. -/
theorem c4_chunk_sizes_and_total {σ : Type} (R : RNG σ)
    (fileSeed fileSize pct blockSize : ℤ)
    (h0 : 0 ≤ fileSize) (h1 : fileSize ≤ 2 ^ 51)
    (hp0 : 0 ≤ pct) (hp1 : pct ≤ 100) (hb : 0 < pct → 1 ≤ blockSize) :
    (generateChunks R fileSeed fileSize pct blockSize).map
        (fun c => (c.length : ℤ)) =
      specChunkSizes (if 0 < pct then blockSize else MAX_CHUNK_SIZE)
        fileSize.toNat fileSize ∧
    ((generateChunks R fileSeed fileSize pct blockSize).flatten).length =
      fileSize.toNat := by
  unfold generateChunks
  refine chunksLoop_lens R pct _ hp0 hp1 ?_ fileSize.toNat fileSize _ h0
    (by omega) h1
  split_ifs with h
  · exact hb h
  · norm_num [MAX_CHUNK_SIZE]

theorem c4_chunk_sizes_and_total_witness :
    ((0 : ℤ) ≤ 10 ∧ (10 : ℤ) ≤ 2 ^ 51 ∧ (0 : ℤ) ≤ 0 ∧ (0 : ℤ) ≤ 100) ∧
    ((generateChunks zeroRNG 0 10 0 4096).map (fun c => (c.length : ℤ)) =
      specChunkSizes (if (0 : ℤ) < 0 then 4096 else MAX_CHUNK_SIZE)
        (10 : ℤ).toNat 10 ∧
    ((generateChunks zeroRNG 0 10 0 4096).flatten).length =
      (10 : ℤ).toNat) :=
  ⟨by decide,
    c4_chunk_sizes_and_total zeroRNG 0 10 0 4096 (by decide) (by decide)
      (by decide) (by decide) (fun h => absurd h (by decide))⟩

/-- Fill-prefix property exactly as the specification words it: within a
chunk of size C, the first floor(C * percentage / 100) bytes are the
constant fill value 255. -/
def chunkFillClaimStated : Prop :=
  ∀ (σ : Type) (R : RNG σ) (fileSeed fileSize pct blockSize : ℤ),
    0 ≤ fileSize → fileSize ≤ 2 ^ 51 → 0 ≤ pct → pct ≤ 100 →
    (0 < pct → 1 ≤ blockSize) → blockSize ≤ 2 ^ 51 →
    ∀ ch ∈ generateChunks R fileSeed fileSize pct blockSize,
      ch.take (ch.length * pct.toNat / 100) =
        List.replicate (ch.length * pct.toNat / 100) 255

/-- C5 counterexample: with percentage 29, blockSize 100 and a 100-byte
file, the generator fills floor in double precision of 100 * (29 / 100),
which is 28 bytes, not the floor(100 * 29 / 100) = 29 bytes the
specification asserts; byte 28 of the chunk already comes from the
content stream. -/
theorem c5_counterexample : ¬ chunkFillClaimStated := by
  intro h
  have h1 := h Unit zeroRNG 0 100 29 100 (by decide) (by decide) (by decide)
    (by decide) (fun _ => by decide) (by decide)
  have h2 := h1 (List.replicate 28 255 ++ List.replicate 72 0) (by decide)
  revert h2
  decide

/-- C5 amended: within every chunk the first k bytes are the constant
fill value 255 and the rest are drawn from the file content stream,
where k is int(math.floor(chunkSize * (percentage / 100.0))) evaluated
in IEEE-754 double precision (the modelled compressSize), not the exact
floor(chunkSize * percentage / 100); in Scenario C (percentage 50,
blockSize 100, fileSize 100) the two agree and the single chunk is
exactly 50 fill bytes followed by 50 pseudo-random bytes. -/
theorem c5_chunk_fill_amended {σ : Type} (R : RNG σ)
    (fileSeed fileSize pct blockSize : ℤ)
    (h0 : 0 ≤ fileSize) (h1 : fileSize ≤ 2 ^ 51)
    (hp0 : 0 ≤ pct) (hp1 : pct ≤ 100) (hb : 0 < pct → 1 ≤ blockSize) :
    (∀ ch ∈ generateChunks R fileSeed fileSize pct blockSize, ∃ s1,
        ch = List.replicate (compressSize pct (ch.length : ℤ)).toNat 255 ++
          (R.bytesFn s1 ((ch.length : ℤ) -
            compressSize pct (ch.length : ℤ)).toNat).1) ∧
    generateChunks R fileSeed 100 50 100 =
      [List.replicate 50 255 ++ (R.bytesFn (R.initFn fileSeed) 50).1] := by
  constructor
  · unfold generateChunks
    refine chunksLoop_shape R pct _ hp0 hp1 ?_ fileSize.toNat fileSize _ h0 h1
    split_ifs with h
    · exact hb h
    · norm_num [MAX_CHUNK_SIZE]
  · unfold generateChunks
    have hite : (if (0 : ℤ) < 50 then (100 : ℤ) else MAX_CHUNK_SIZE) = 100 :=
      by norm_num
    rw [hite]
    have hcs : compressSize 50 (min (100 : ℤ) 100) = 50 := by decide
    show chunksLoop R 50 100 (99 + 1) 100 (R.initFn fileSeed) = _
    rw [chunksLoop]
    have hr : ¬ ((100 : ℤ) ≤ 0) := by decide
    rw [if_neg hr, hcs]
    have hrest : ∀ s0 : σ, chunksLoop R 50 100 99
        (100 - min (100 : ℤ) 100) s0 = [] := by
      intro s0
      show chunksLoop R 50 100 (98 + 1) (100 - min (100 : ℤ) 100) s0 = []
      rw [chunksLoop]
      norm_num
    rw [hrest]
    norm_num
    rfl

theorem c5_chunk_fill_amended_witness :
    ((0 : ℤ) ≤ 100 ∧ (100 : ℤ) ≤ 2 ^ 51 ∧ (0 : ℤ) ≤ 29 ∧ (29 : ℤ) ≤ 100 ∧
      ((0 : ℤ) < 29 → (1 : ℤ) ≤ 100)) ∧
    ((∀ ch ∈ generateChunks zeroRNG 0 100 29 100, ∃ s1,
        ch = List.replicate (compressSize 29 (ch.length : ℤ)).toNat 255 ++
          (zeroRNG.bytesFn s1 ((ch.length : ℤ) -
            compressSize 29 (ch.length : ℤ)).toNat).1) ∧
    generateChunks zeroRNG 0 100 50 100 =
      [List.replicate 50 255 ++
        (zeroRNG.bytesFn (zeroRNG.initFn 0) 50).1]) :=
  ⟨by decide,
    c5_chunk_fill_amended zeroRNG 0 100 29 100 (by decide) (by decide)
      (by decide) (by decide) (fun _ => by decide)⟩

/-! ### Node model and tree builder (RandomDirTree) -/

/-- In-memory node model before naming: Directory with ordered children,
GeneratedFile with its drawn fileSeed and fileSize, CopyNode with its
sourcePath.  The tree root is the directory node RandomDirTree.root. -/
inductive RNode where
  | dir : List RNode → RNode
  | file : ℤ → ℤ → RNode
  | copy : String → RNode

/-- Node.isDir of the source: true exactly for directory nodes. -/
def RNode.isDir : RNode → Bool
  | .dir _ => true
  | _ => false

/-- A position in the tree: the list of child indices from the root.
The depth attribute of a node is the length of its position, with the
root at depth 0 as in the source. -/
abbrev TPos := List ℕ

/-- Number of children of the directory at a position. -/
def childCount : RNode → TPos → ℕ
  | .dir cs, [] => cs.length
  | .dir cs, i :: rest => childCount (cs.getD i (.dir [])) rest
  | _, _ => 0

/-- DirNode.addNode at a position: append the new child to the children
list of the directory at that position (no change if the position does
not denote a directory). -/
def appendChild : RNode → TPos → RNode → RNode
  | .dir cs, [], c => .dir (cs ++ [c])
  | .dir cs, i :: rest, c =>
    .dir (cs.set i (appendChild (cs.getD i (.dir [])) rest c))
  | n, _, _ => n

/-- Builder state: the tree under construction, the dirNodes candidate
pool (as positions, root = []), and the structural rng state
(self.rng). -/
structure BuildState (σ : Type) where
  root : RNode
  pool : List TPos
  rng : σ

/-- Parent reassignment of RandomDirTree._attach for directory nodes: if
the chosen parent has depth > 0 and depth at least maxDepth, the node is
attached to the chosen parent of the parent instead. -/
def dirParentPos (maxDepth : ℤ) (p : TPos) : TPos :=
  if 0 < p.length ∧ maxDepth ≤ (p.length : ℤ) then p.dropLast else p

/-- RandomDirTree._attach with the drawn parent position made explicit:
directories are reattached by dirParentPos and appended to the pool;
files and copies are attached to the drawn parent unchanged. -/
def attachAt {σ : Type} (maxDepth : ℤ) (node : RNode) (p : TPos)
    (st : BuildState σ) (s2 : σ) : BuildState σ :=
  if node.isDir then
    { root := appendChild st.root (dirParentPos maxDepth p) node,
      pool := st.pool ++ [dirParentPos maxDepth p ++
        [childCount st.root (dirParentPos maxDepth p)]],
      rng := s2 }
  else
    { root := appendChild st.root p node, pool := st.pool, rng := s2 }

/-- RandomDirTree._attach: the parent is drawn by a uniform choice over
the current dirNodes pool (choice(seq) = seq[randint(len(seq))]). -/
def attach {σ : Type} (R : RNG σ) (maxDepth : ℤ) (node : RNode)
    (st : BuildState σ) : BuildState σ :=
  attachAt maxDepth node
    (st.pool.getD (R.randintFn st.rng st.pool.length).1 []) st
    (R.randintFn st.rng st.pool.length).2

/-- The directory-creation loop of RandomDirTree._createNodes:
for i in range(dirs.num): attach a fresh DirNode. -/
def createDirs {σ : Type} (R : RNG σ) (maxDepth : ℤ) :
    ℕ → BuildState σ → BuildState σ
  | 0, st => st
  | n + 1, st => createDirs R maxDepth n (attach R maxDepth (.dir []) st)

/-- One size category of the configuration (gen.huge, gen.large,
gen.medium, gen.small). -/
structure SizeCat where
  catMin : ℤ
  catMax : ℤ
  num : ℤ
  numCoalescent : ℤ
  coalescent : ℤ

/-- Clone-count decision of RandomDirTree._createFileNodes, taken after
the base file was attached, with numFiles already decremented:
if the numCoalescent budget is positive, the count is the whole budget
when numFiles equals it and min(budget, random_integers(1, 3)) otherwise
and the budget drops by the count; otherwise a positive legacy counter
draws random_integers(1, 3) and drops by one; otherwise the count is
zero.  Returns (copies, numCoal, numCoalLegacy, rng). -/
def cloneDecision {σ : Type} (R : RNG σ) (numFiles numCoal numLegacy : ℤ)
    (s : σ) : ℤ × ℤ × ℤ × σ :=
  if 0 < numCoal then
    if numFiles = numCoal then (numCoal, numCoal - numCoal, numLegacy, s)
    else
      (min numCoal (R.randIntegersFn s 1 3).1,
        numCoal - min numCoal (R.randIntegersFn s 1 3).1, numLegacy,
        (R.randIntegersFn s 1 3).2)
  else if 0 < numLegacy then
    ((R.randIntegersFn s 1 3).1, numCoal, numLegacy - 1,
      (R.randIntegersFn s 1 3).2)
  else (0, numCoal, numLegacy, s)

/-- Attach n clones of a node, each with its own parent draw. -/
def attachN {σ : Type} (R : RNG σ) (maxDepth : ℤ) (node : RNode) :
    ℕ → BuildState σ → BuildState σ
  | 0, st => st
  | n + 1, st => attachN R maxDepth node n (attach R maxDepth node st)

/-- Drawing the base file of one loop iteration of _createFileNodes:
FileNode(self.rng, category) draws the fileSeed and then the fileSize,
and the node is attached with a further parent draw.  Returns the drawn
seed, the drawn size and the updated state. -/
def baseAttach {σ : Type} (R : RNG σ) (maxDepth : ℤ) (cat : SizeCat)
    (st : BuildState σ) : ℤ × ℤ × BuildState σ :=
  ((R.randomSeedFn st.rng).1,
    (R.randIntegersFn (R.randomSeedFn st.rng).2 cat.catMin cat.catMax).1,
    attach R maxDepth
      (.file (R.randomSeedFn st.rng).1
        (R.randIntegersFn (R.randomSeedFn st.rng).2 cat.catMin cat.catMax).1)
      { st with
          rng := (R.randIntegersFn (R.randomSeedFn st.rng).2 cat.catMin
            cat.catMax).2 })

/-- One iteration of the while loop of _createFileNodes: create and
attach the base file, decide the clone count, clamp it to the remaining
file budget, and attach that many clones sharing the base fileSeed and
fileSize.  Returns (numFiles, numCoal, numCoalLegacy, state). -/
def fileStep {σ : Type} (R : RNG σ) (maxDepth : ℤ) (cat : SizeCat)
    (numFiles numCoal numLegacy : ℤ) (st : BuildState σ) :
    ℤ × ℤ × ℤ × BuildState σ :=
  match baseAttach R maxDepth cat st with
  | (seed, size, st1) =>
    match cloneDecision R (numFiles - 1) numCoal numLegacy st1.rng with
    | (copies, nc2, nl2, s3) =>
      (numFiles - 1 - min copies (numFiles - 1), nc2, nl2,
        attachN R maxDepth (.file seed size)
          (min copies (numFiles - 1)).toNat { st1 with rng := s3 })

theorem cloneDecision_nonneg {σ : Type} (R : RNG σ)
    (nf nc nl : ℤ) (s : σ) : 0 ≤ (cloneDecision R nf nc nl s).1 := by
  have hd := R.randIntegers_mem s 1 3 (by norm_num)
  unfold cloneDecision
  split_ifs <;> simp <;> omega

theorem fileStep_next_bounds {σ : Type} (R : RNG σ) (maxDepth : ℤ)
    (cat : SizeCat) (numFiles numCoal numLegacy : ℤ) (st : BuildState σ)
    (h : 0 < numFiles) :
    0 ≤ (fileStep R maxDepth cat numFiles numCoal numLegacy st).1 ∧
    (fileStep R maxDepth cat numFiles numCoal numLegacy st).1 < numFiles := by
  unfold fileStep
  rcases hBA : baseAttach R maxDepth cat st with ⟨seed, size, st1⟩
  dsimp only
  rcases hCD : cloneDecision R (numFiles - 1) numCoal numLegacy st1.rng with
    ⟨copies, nc2, nl2, s3⟩
  dsimp only
  have hcd := cloneDecision_nonneg R (numFiles - 1) numCoal numLegacy st1.rng
  rw [hCD] at hcd
  simp only at hcd
  omega

/-- The while loop of RandomDirTree._createFileNodes. -/
def createFilesLoop {σ : Type} (R : RNG σ) (maxDepth : ℤ) (cat : SizeCat)
    (numFiles numCoal numLegacy : ℤ) (st : BuildState σ) : BuildState σ :=
  if numFiles ≤ 0 then st
  else
    createFilesLoop R maxDepth cat
      (fileStep R maxDepth cat numFiles numCoal numLegacy st).1
      (fileStep R maxDepth cat numFiles numCoal numLegacy st).2.1
      (fileStep R maxDepth cat numFiles numCoal numLegacy st).2.2.1
      (fileStep R maxDepth cat numFiles numCoal numLegacy st).2.2.2
termination_by numFiles.toNat
decreasing_by
  have hb := fileStep_next_bounds R maxDepth cat numFiles numCoal numLegacy st
    (by omega)
  omega

/-- RandomDirTree._createFileNodes: the coalescent counts are validated
against the file count of the category before the loop runs. -/
def createFiles {σ : Type} (R : RNG σ) (maxDepth : ℤ) (cat : SizeCat)
    (st : BuildState σ) : Except PyExc (BuildState σ) :=
  if cat.numCoalescent > cat.num ∨ cat.coalescent > cat.num then
    .error (.genError ("A coalescent file count is greater than the maximum"))
  else
    .ok (createFilesLoop R maxDepth cat cat.num cat.numCoalescent
      cat.coalescent st)

/-- The gen.* configuration fields the core uses, resolved to plain
values (the auto-vivifying Config mechanism is out of scope). -/
structure GenCfg where
  huge : SizeCat
  large : SizeCat
  medium : SizeCat
  small : SizeCat
  copiedNum : ℤ
  copiedSourceDir : String
  dirsNum : ℤ
  maxDepth : ℤ
  percentage : ℤ
  blockSize : ℤ
  fsyncFlag : Bool
  truncateFlag : Bool
  readableFilenames : Bool
  namePfx : String
  randseed : ℤ

/-- The world outside the generated tree: the enumeration os.walk
produces for a directory, which paths are regular files, and the byte
content of those files.  It is a fixed parameter of a run. -/
structure ExtFS where
  walk : String → List String
  isFile : String → Bool
  content : String → List ℕ

/-- The copy-creation loop of _createCopyNodes: each iteration draws a
source path by a uniform choice over the file list with the structural
rng, then attaches a CopyNode with its own parent draw. -/
def copyLoop {σ : Type} (R : RNG σ) (maxDepth : ℤ) (fileList : List String) :
    ℕ → BuildState σ → BuildState σ
  | 0, st => st
  | n + 1, st =>
    copyLoop R maxDepth fileList n
      (attach R maxDepth
        (.copy (fileList.getD (R.randintFn st.rng fileList.length).1 ""))
        { st with rng := (R.randintFn st.rng fileList.length).2 })

/-- RandomDirTree._createCopyNodes: nothing happens when copied.num is
zero (Python falsiness of the int); otherwise the regular files below
copied.sourceDir are enumerated and an empty enumeration raises
Error. -/
def createCopies {σ : Type} (R : RNG σ) (cfg : GenCfg) (ext : ExtFS)
    (st : BuildState σ) : Except PyExc (BuildState σ) :=
  if cfg.copiedNum = 0 then .ok st
  else if ((ext.walk cfg.copiedSourceDir).filter ext.isFile) = [] then
    .error (.genError ("no files found in " ++ cfg.copiedSourceDir))
  else
    .ok (copyLoop R cfg.maxDepth
      ((ext.walk cfg.copiedSourceDir).filter ext.isFile)
      cfg.copiedNum.toNat st)

/-- Root removal of _createNodes: if subdirectories were created (the
pool holds more than one entry), the root is popped from the pool so no
further node lands directly in the root directory. -/
def poolPop {σ : Type} (st : BuildState σ) : BuildState σ :=
  if 1 < st.pool.length then { st with pool := st.pool.tail } else st

/-- RandomDirTree._createNodes: directories first, then the root pop,
then the four size categories in the fixed order huge, large, medium,
small, then the copy nodes. -/
def createNodes {σ : Type} (R : RNG σ) (cfg : GenCfg) (ext : ExtFS)
    (st : BuildState σ) : Except PyExc (BuildState σ) :=
  (createFiles R cfg.maxDepth cfg.huge
      (poolPop (createDirs R cfg.maxDepth cfg.dirsNum.toNat st))).bind
    (fun st3 => (createFiles R cfg.maxDepth cfg.large st3).bind
      (fun st4 => (createFiles R cfg.maxDepth cfg.medium st4).bind
        (fun st5 => (createFiles R cfg.maxDepth cfg.small st5).bind
          (fun st6 => createCopies R cfg ext st6))))

/-- RandomDirTree.__init__ up to naming: the rng is seeded from
gen.randseed, the root directory node exists and is the only pool entry,
and a negative gen.dirs.maxDepth is rejected before any further node is
created.  In Python 3 the rejection itself evaluates
"MaxDirDepth must be positive: " + gen.dirs.maxDepth, a str + int,
which raises TypeError instead of the intended Error. -/
def initTree {σ : Type} (R : RNG σ) (cfg : GenCfg) (ext : ExtFS) :
    Except PyExc (BuildState σ) :=
  if cfg.maxDepth < 0 then
    match pyStrAddInt ("MaxDirDepth must be positive: ") cfg.maxDepth with
    | .error e => .error e
    | .ok msg => .error (.genError msg)
  else
    createNodes R cfg ext
      ({ root := .dir [], pool := [[]],
         rng := R.initFn cfg.randseed } : BuildState σ)

/-! ### Namer -/

/-- Decimal digit character. -/
def digitChar (d : ℕ) : Char := Char.ofNat (48 + d)

/-- Decimal digits of n, least significant first; the fuel only bounds
the digit count and n itself always suffices. -/
def digitsRev : ℕ → ℕ → List Char
  | 0, _ => []
  | fuel + 1, n =>
    if n = 0 then [] else digitChar (n % 10) :: digitsRev fuel (n / 10)

/-- Decimal rendering of a natural number, modelling str(counter) of
the Namer. -/
def natToStr (n : ℕ) : String :=
  if n = 0 then "0" else String.mk (digitsRev n n).reverse

/-- Decoder for digitsRev, used to prove injectivity of natToStr. -/
def undigits : List Char → ℕ
  | [] => 0
  | c :: cs => (c.toNat - 48) + 10 * undigits cs

theorem digitChar_toNat {d : ℕ} (h : d < 10) : (digitChar d).toNat = 48 + d := by
  interval_cases d <;> rfl

theorem undigits_digitsRev : ∀ fuel n, n ≤ fuel →
    undigits (digitsRev fuel n) = n := by
  intro fuel
  induction fuel with
  | zero =>
    intro n h
    have : n = 0 := by omega
    subst this
    rfl
  | succ f ih =>
    intro n h
    rw [digitsRev]
    by_cases hn : n = 0
    · subst hn
      rfl
    · rw [if_neg hn, undigits, digitChar_toNat (Nat.mod_lt n (by omega)),
        ih (n / 10) (by omega)]
      omega

theorem digitsRev_ne_nil {fuel n : ℕ} (h1 : n ≠ 0) (h2 : n ≤ fuel) :
    digitsRev fuel n ≠ [] := by
  cases fuel with
  | zero => omega
  | succ f =>
    rw [digitsRev, if_neg h1]
    simp

theorem natToStr_inj {a b : ℕ} (h : natToStr a = natToStr b) : a = b := by
  unfold natToStr at h
  have hz : ("0" : String).data = ['0'] := rfl
  have hu0 : undigits ['0'] = 0 := rfl
  by_cases ha : a = 0 <;> by_cases hb : b = 0
  · omega
  · rw [if_pos ha, if_neg hb] at h
    have hd : ("0" : String).data = ((digitsRev b b).reverse : List Char) :=
      congrArg String.data h
    rw [hz] at hd
    have hrev : digitsRev b b = ['0'] := by
      have h3 := congrArg List.reverse hd
      simpa using h3.symm
    have h0 : undigits (digitsRev b b) = b := undigits_digitsRev b b (le_refl b)
    rw [hrev, hu0] at h0
    omega
  · rw [if_neg ha, if_pos hb] at h
    have hd : ((digitsRev a a).reverse : List Char) = ("0" : String).data :=
      congrArg String.data h
    rw [hz] at hd
    have hrev : digitsRev a a = ['0'] := by
      have h3 := congrArg List.reverse hd
      simpa using h3
    have h0 : undigits (digitsRev a a) = a := undigits_digitsRev a a (le_refl a)
    rw [hrev, hu0] at h0
    omega
  · rw [if_neg ha, if_neg hb] at h
    have hd := congrArg String.data h
    simp only [String.mk] at hd
    have hlist : digitsRev a a = digitsRev b b := by
      have h3 := congrArg List.reverse hd
      simpa using h3
    have h1 : undigits (digitsRev a a) = a := undigits_digitsRev a a (le_refl a)
    have h2 : undigits (digitsRev b b) = b := undigits_digitsRev b b (le_refl b)
    rw [hlist, h2] at h1
    omega

/-- Filesystem path as the list of its components; os.path.join with a
separator-free name appends one component. -/
abbrev FPath := List String

/-- Named node: the same node model after the Namer has assigned every
node its path. -/
inductive NNode where
  | dir : FPath → List NNode → NNode
  | file : FPath → ℤ → ℤ → NNode
  | copy : FPath → String → NNode

mutual
/-- Namer traversal for one non-root node: assign the node the next
counter value (path = parent path joined with namePrefix + str(c)),
then visit the children of a directory; returns the named node and the
next counter. -/
def nameNode (pfx : String) (ppath : FPath) (c : ℕ) : RNode → NNode × ℕ
  | .dir cs =>
    match nameForest pfx (ppath ++ [pfx ++ natToStr c]) (c + 1) cs with
    | (cs2, c2) => (.dir (ppath ++ [pfx ++ natToStr c]) cs2, c2)
  | .file seed size => (.file (ppath ++ [pfx ++ natToStr c]) seed size, c + 1)
  | .copy src => (.copy (ppath ++ [pfx ++ natToStr c]) src, c + 1)

/-- Namer traversal for a children list, threading the counter from one
sibling subtree to the next. -/
def nameForest (pfx : String) (ppath : FPath) (c : ℕ) :
    List RNode → List NNode × ℕ
  | [] => ([], c)
  | n :: ns =>
    match nameNode pfx ppath c n with
    | (n2, c2) =>
      match nameForest pfx ppath c2 ns with
      | (ns2, c3) => (n2 :: ns2, c3)
end

/-- DirNode.nameNodes from the root: the root keeps its base path and is
never named itself; its children are named with the counter starting at
zero. -/
def nameRoot (pfx : String) (rootDir : FPath) : RNode → NNode
  | .dir cs => .dir rootDir (nameForest pfx rootDir 0 cs).1
  | .file seed size => .file rootDir seed size
  | .copy src => .copy rootDir src

/-- Building and naming the tree, the part of RandomDirTree.__init__
shared by generation and verification.  Non-readable filenames are not
supported by the source and raise Error. -/
def buildNamed {σ : Type} (R : RNG σ) (cfg : GenCfg) (ext : ExtFS)
    (rootDir : FPath) : Except PyExc NNode :=
  match initTree R cfg ext with
  | .error e => .error e
  | .ok st =>
    if cfg.readableFilenames then .ok (nameRoot cfg.namePfx rootDir st.root)
    else .error (.genError ("ugly filenames are not currently supported"))

mutual
/-- Depths of every directory node of a subtree rooted at depth d,
root included. -/
def dirDepths (d : ℕ) : RNode → List ℕ
  | .dir cs => d :: dirDepthsForest (d + 1) cs
  | .file _ _ => []
  | .copy _ => []

/-- Depths of every directory node of a forest whose members sit at
depth d. -/
def dirDepthsForest (d : ℕ) : List RNode → List ℕ
  | [] => []
  | n :: ns => dirDepths d n ++ dirDepthsForest d ns
end

mutual
/-- Number of generated-file nodes in a subtree. -/
def fileCount : RNode → ℕ
  | .dir cs => fileCountForest cs
  | .file _ _ => 1
  | .copy _ => 0

/-- Number of generated-file nodes in a forest. -/
def fileCountForest : List RNode → ℕ
  | [] => 0
  | n :: ns => fileCount n + fileCountForest ns
end

/-- A size category with every count and bound zero. -/
def zeroCat : SizeCat := ⟨0, 0, 0, 0, 0⟩

/-- An external filesystem with no files at all. -/
def emptyExt : ExtFS := ⟨fun _ => [], fun _ => false, fun _ => []⟩

theorem createFilesLoop_nonpos {σ : Type} (R : RNG σ) (maxDepth : ℤ)
    (cat : SizeCat) {numFiles : ℤ} (nc nl : ℤ) (st : BuildState σ)
    (h : numFiles ≤ 0) :
    createFilesLoop R maxDepth cat numFiles nc nl st = st := by
  rw [createFilesLoop]
  simp [h]

theorem createFiles_zeroCat {σ : Type} (R : RNG σ) (maxD : ℤ)
    (st : BuildState σ) : createFiles R maxD zeroCat st = .ok st := by
  unfold createFiles
  rw [if_neg (by norm_num [zeroCat])]
  rw [createFilesLoop_nonpos R maxD zeroCat _ _ st (by norm_num [zeroCat])]

theorem createCopies_zero {σ : Type} (R : RNG σ) (cfg : GenCfg) (ext : ExtFS)
    (st : BuildState σ) (h : cfg.copiedNum = 0) :
    createCopies R cfg ext st = .ok st := by
  unfold createCopies
  rw [if_pos h]

/-- Configuration with maxDepth -1 and everything else inert. -/
def c8Cfg : GenCfg :=
  ⟨zeroCat, zeroCat, zeroCat, zeroCat, 0, "", 0, -1, 0, 4096,
    false, false, true, "", 42⟩

/-- C8 (code bug): a negative gen.dirs.maxDepth is rejected in
RandomDirTree.init before any node beyond the root is created, but the
intended Error is never raised: the message expression
"MaxDirDepth must be positive: " + gen.dirs.maxDepth concatenates str
and int, which in Python 3 raises TypeError first. -/
theorem c8_negative_maxDepth_raises_typeError {σ : Type} (R : RNG σ)
    (cfg : GenCfg) (ext : ExtFS) (h : cfg.maxDepth < 0) :
    initTree R cfg ext = .error PyExc.typeError := by
  unfold initTree
  rw [if_pos h]
  rfl

theorem c8_negative_maxDepth_raises_typeError_witness :
    c8Cfg.maxDepth < 0 ∧
    initTree zeroRNG c8Cfg emptyExt = .error PyExc.typeError :=
  ⟨by decide, c8_negative_maxDepth_raises_typeError zeroRNG c8Cfg emptyExt
    (by decide)⟩

/-- Configuration for the depth-bound counterexample: one directory,
maxDepth 0, nothing else. -/
def c3Cfg : GenCfg :=
  ⟨zeroCat, zeroCat, zeroCat, zeroCat, 0, "", 1, 0, 0, 4096,
    false, false, true, "", 7⟩

/-- Depth bound exactly as the claim states it: for every configuration
with nonnegative maxDepth, every directory of the built tree sits at
depth at most maxDepth. -/
def depthBoundClaimStated : Prop :=
  ∀ (σ : Type) (R : RNG σ) (cfg : GenCfg) (ext : ExtFS) (st : BuildState σ),
    0 ≤ cfg.maxDepth → initTree R cfg ext = .ok st →
    ∀ x ∈ dirDepths 0 st.root, (x : ℤ) ≤ cfg.maxDepth

theorem c3_run : initTree zeroRNG c3Cfg emptyExt =
    .ok (⟨.dir [.dir []], [[0]], ()⟩ : BuildState Unit) := by
  unfold initTree
  rw [if_neg (by decide)]
  unfold createNodes
  rw [show poolPop (createDirs zeroRNG c3Cfg.maxDepth c3Cfg.dirsNum.toNat
    ({ root := .dir [], pool := [[]],
       rng := zeroRNG.initFn c3Cfg.randseed } : BuildState Unit)) =
    (⟨.dir [.dir []], [[0]], ()⟩ : BuildState Unit) from rfl]
  rw [show c3Cfg.huge = zeroCat from rfl, show c3Cfg.large = zeroCat from rfl,
    show c3Cfg.medium = zeroCat from rfl, show c3Cfg.small = zeroCat from rfl]
  rw [createFiles_zeroCat]
  show (createFiles zeroRNG c3Cfg.maxDepth zeroCat _).bind _ = _
  rw [createFiles_zeroCat]
  show (createFiles zeroRNG c3Cfg.maxDepth zeroCat _).bind _ = _
  rw [createFiles_zeroCat]
  show (createFiles zeroRNG c3Cfg.maxDepth zeroCat _).bind _ = _
  rw [createFiles_zeroCat]
  show createCopies zeroRNG c3Cfg emptyExt _ = _
  rw [createCopies_zero zeroRNG c3Cfg emptyExt _ (by decide)]

/-- C3 counterexample: with maxDepth 0 and one directory to create, the
drawn parent is the root, whose depth 0 disables the reattachment guard
(parent.depth > 0 fails), so the new directory lands at depth 1 even
though maxDepth is 0. -/
theorem c3_counterexample : ¬ depthBoundClaimStated := by
  intro h
  have h1 := h Unit zeroRNG c3Cfg emptyExt
    (⟨.dir [.dir []], [[0]], ()⟩ : BuildState Unit) (by decide) c3_run
  have h2 := h1 1 (by simp [dirDepths, dirDepthsForest])
  revert h2
  decide

/-! ### Builder invariants -/

/-- Whether a position denotes a directory node of the tree (every index
on the way must be in bounds and every traversed node a directory). -/
def isDirAt : RNode → TPos → Bool
  | .dir _, [] => true
  | .dir cs, i :: rest => decide (i < cs.length) && isDirAt (cs.getD i (.dir [])) rest
  | .file _ _, _ => false
  | .copy _, _ => false

theorem isDirAt_dropLast : ∀ (p : TPos) (t : RNode), isDirAt t p = true →
    isDirAt t p.dropLast = true := by
  intro p
  induction p with
  | nil =>
    intro t h
    simpa using h
  | cons i rest ih =>
    intro t h
    cases t with
    | dir cs =>
      cases rest with
      | nil => simp [isDirAt]
      | cons j rest2 =>
        rw [List.dropLast_cons₂]
        rw [isDirAt, Bool.and_eq_true] at h ⊢
        exact ⟨h.1, ih _ h.2⟩
    | file seed size => simp [isDirAt] at h
    | copy src => simp [isDirAt] at h

theorem isDirAt_appendChild : ∀ (p q : TPos) (t n : RNode),
    isDirAt t p = true → isDirAt (appendChild t q n) p = true := by
  intro p
  induction p with
  | nil =>
    intro q t n h
    cases t with
    | dir cs => cases q <;> simp [appendChild, isDirAt]
    | file seed size => simp [isDirAt] at h
    | copy src => simp [isDirAt] at h
  | cons i rest ih =>
    intro q t n h
    cases t with
    | dir cs =>
      rw [isDirAt, Bool.and_eq_true, decide_eq_true_eq] at h
      obtain ⟨hb, hsub⟩ := h
      cases q with
      | nil =>
        rw [appendChild, isDirAt, Bool.and_eq_true, decide_eq_true_eq]
        constructor
        · rw [List.length_append]
          omega
        · rw [List.getD_eq_getElem?_getD, List.getElem?_append_left hb,
            ← List.getD_eq_getElem?_getD]
          exact hsub
      | cons j qr =>
        rw [appendChild, isDirAt, Bool.and_eq_true, decide_eq_true_eq]
        constructor
        · rw [List.length_set]
          exact hb
        · by_cases hij : i = j
          · subst hij
            rw [List.getD_eq_getElem?_getD, List.getElem?_set_self
              (by omega), Option.getD_some]
            exact ih qr _ n hsub
          · rw [List.getD_eq_getElem?_getD,
              List.getElem?_set_ne (fun hji => hij hji.symm),
              ← List.getD_eq_getElem?_getD]
            exact hsub
    | file seed size => simp [isDirAt] at h
    | copy src => simp [isDirAt] at h

theorem isDirAt_appendChild_new : ∀ (p : TPos) (t n : RNode),
    isDirAt t p = true → isDirAt n [] = true →
    isDirAt (appendChild t p n) (p ++ [childCount t p]) = true := by
  intro p
  induction p with
  | nil =>
    intro t n h hn
    cases t with
    | dir cs =>
      rw [appendChild]
      show isDirAt (RNode.dir (cs ++ [n])) ([] ++ [childCount (.dir cs) []]) =
        true
      rw [List.nil_append, childCount, isDirAt, Bool.and_eq_true,
        decide_eq_true_eq]
      constructor
      · rw [List.length_append]
        simp
      · rw [List.getD_eq_getElem?_getD, List.getElem?_concat_length,
          Option.getD_some]
        exact hn
    | file seed size => simp [isDirAt] at h
    | copy src => simp [isDirAt] at h
  | cons i rest ih =>
    intro t n h hn
    cases t with
    | dir cs =>
      rw [isDirAt, Bool.and_eq_true, decide_eq_true_eq] at h
      obtain ⟨hb, hsub⟩ := h
      rw [appendChild]
      show isDirAt (RNode.dir (cs.set i (appendChild (cs.getD i (.dir []))
        rest n))) ((i :: rest) ++ [childCount (.dir cs) (i :: rest)]) = true
      rw [List.cons_append, childCount, isDirAt, Bool.and_eq_true,
        decide_eq_true_eq]
      constructor
      · rw [List.length_set]
        exact hb
      · rw [List.getD_eq_getElem?_getD, List.getElem?_set_self (by omega),
          Option.getD_some]
        exact ih _ n hsub hn
    | file seed size => simp [isDirAt] at h
    | copy src => simp [isDirAt] at h

/-- Well-formedness of a builder state: the root is a directory and
every pool entry denotes a directory of the tree.  This holds for the
initial state and is preserved by every attachment. -/
def stOK {σ : Type} (st : BuildState σ) : Prop :=
  isDirAt st.root [] = true ∧ ∀ p ∈ st.pool, isDirAt st.root p = true

theorem stOK_pool_getD {σ : Type} {st : BuildState σ} (h : stOK st) (i : ℕ) :
    isDirAt st.root (st.pool.getD i []) = true := by
  by_cases hb : i < st.pool.length
  · have hmem : st.pool.getD i [] ∈ st.pool := by
      simp only [List.getD_eq_getElem?_getD, List.getElem?_eq_getElem hb,
        Option.getD_some]
      exact List.getElem_mem hb
    exact h.2 _ hmem
  · rw [List.getD_eq_getElem?_getD, List.getElem?_eq_none (by omega)]
    exact h.1

theorem stOK_attachAt {σ : Type} {st : BuildState σ} {p : TPos}
    (maxD : ℤ) (node : RNode) (s2 : σ) (h : stOK st)
    (hp : isDirAt st.root p = true) :
    stOK (attachAt maxD node p st s2) := by
  unfold attachAt
  split_ifs with hd
  · have hnode : isDirAt node [] = true := by
      cases node with
      | dir cs => rfl
      | file seed size => simp [RNode.isDir] at hd
      | copy s => simp [RNode.isDir] at hd
    have hp2 : isDirAt st.root (dirParentPos maxD p) = true := by
      unfold dirParentPos
      split_ifs
      · exact isDirAt_dropLast p st.root hp
      · exact hp
    refine ⟨isDirAt_appendChild [] _ _ _ h.1, ?_⟩
    intro q hq
    rw [List.mem_append] at hq
    rcases hq with hq | hq
    · exact isDirAt_appendChild q _ _ _ (h.2 q hq)
    · rw [List.mem_singleton] at hq
      subst hq
      exact isDirAt_appendChild_new _ _ _ hp2 hnode
  · refine ⟨isDirAt_appendChild [] _ _ _ h.1, ?_⟩
    intro q hq
    exact isDirAt_appendChild q _ _ _ (h.2 q hq)

theorem stOK_attach {σ : Type} (R : RNG σ) (maxD : ℤ) (node : RNode)
    {st : BuildState σ} (h : stOK st) : stOK (attach R maxD node st) :=
  stOK_attachAt maxD node _ h (stOK_pool_getD h _)

theorem stOK_attachN {σ : Type} (R : RNG σ) (maxD : ℤ) (node : RNode) :
    ∀ (n : ℕ) {st : BuildState σ}, stOK st →
      stOK (attachN R maxD node n st) := by
  intro n
  induction n with
  | zero => intro st h; exact h
  | succ k ih => intro st h; exact ih (stOK_attach R maxD node h)

theorem stOK_createDirs {σ : Type} (R : RNG σ) (maxD : ℤ) :
    ∀ (n : ℕ) {st : BuildState σ}, stOK st →
      stOK (createDirs R maxD n st) := by
  intro n
  induction n with
  | zero => intro st h; exact h
  | succ k ih => intro st h; exact ih (stOK_attach R maxD _ h)

theorem stOK_baseAttach {σ : Type} (R : RNG σ) (maxD : ℤ) (cat : SizeCat)
    {st : BuildState σ} (h : stOK st) :
    stOK (baseAttach R maxD cat st).2.2 := by
  unfold baseAttach
  exact stOK_attach R maxD _ h

theorem stOK_fileStep {σ : Type} (R : RNG σ) (maxD : ℤ) (cat : SizeCat)
    (nf nc nl : ℤ) {st : BuildState σ} (h : stOK st) :
    stOK (fileStep R maxD cat nf nc nl st).2.2.2 := by
  have hB := stOK_baseAttach R maxD cat h
  unfold fileStep
  rcases hBA : baseAttach R maxD cat st with ⟨seed, size, st1⟩
  rw [hBA] at hB
  dsimp only
  rcases hCD : cloneDecision R (nf - 1) nc nl st1.rng with ⟨copies, nc2, nl2, s3⟩
  dsimp only
  exact stOK_attachN R maxD _ _ hB

theorem stOK_createFilesLoop {σ : Type} (R : RNG σ) (maxD : ℤ) (cat : SizeCat) :
    ∀ (nf nc nl : ℤ) (st : BuildState σ), stOK st →
      stOK (createFilesLoop R maxD cat nf nc nl st) := by
  intro nf nc nl st
  induction nf, nc, nl, st using createFilesLoop.induct R maxD cat with
  | case1 nf nc nl st hnf =>
    intro h
    rw [createFilesLoop_nonpos R maxD cat _ _ _ hnf]
    exact h
  | case2 nf nc nl st hnf ih =>
    intro h
    rw [createFilesLoop, if_neg hnf]
    exact ih (stOK_fileStep R maxD cat nf nc nl h)

theorem stOK_copyLoop {σ : Type} (R : RNG σ) (maxD : ℤ) (fl : List String) :
    ∀ (n : ℕ) {st : BuildState σ}, stOK st →
      stOK (copyLoop R maxD fl n st) := by
  intro n
  induction n with
  | zero => intro st h; exact h
  | succ k ih =>
    intro st h
    refine ih (stOK_attach R maxD _ ?_)
    exact ⟨h.1, h.2⟩

theorem stOK_poolPop {σ : Type} {st : BuildState σ} (h : stOK st) :
    stOK (poolPop st) := by
  unfold poolPop
  split_ifs
  · refine ⟨h.1, ?_⟩
    intro p hp
    exact h.2 p (List.mem_of_mem_tail hp)
  · exact h

theorem stOK_createFiles {σ : Type} (R : RNG σ) (maxD : ℤ) (cat : SizeCat)
    {st st2 : BuildState σ} (h : stOK st)
    (he : createFiles R maxD cat st = .ok st2) : stOK st2 := by
  unfold createFiles at he
  by_cases hc : (cat.numCoalescent > cat.num ∨ cat.coalescent > cat.num)
  · rw [if_pos hc] at he
    cases he
  · rw [if_neg hc] at he
    cases he
    exact stOK_createFilesLoop R maxD cat _ _ _ _ h

theorem stOK_createCopies {σ : Type} (R : RNG σ) (cfg : GenCfg) (ext : ExtFS)
    {st st2 : BuildState σ} (h : stOK st)
    (he : createCopies R cfg ext st = .ok st2) : stOK st2 := by
  unfold createCopies at he
  by_cases hc1 : cfg.copiedNum = 0
  · rw [if_pos hc1] at he
    cases he
    exact h
  · rw [if_neg hc1] at he
    by_cases hc2 : ((ext.walk cfg.copiedSourceDir).filter ext.isFile) = []
    · rw [if_pos hc2] at he
      cases he
    · rw [if_neg hc2] at he
      cases he
      exact stOK_copyLoop R cfg.maxDepth _ _ h

theorem exbind_ok {α β : Type} (x : α) (f : α → Except PyExc β) :
    (Except.ok x).bind f = f x := rfl

theorem exbind_error {α β : Type} (e : PyExc) (f : α → Except PyExc β) :
    (Except.error e).bind f = (.error e : Except PyExc β) := rfl

theorem stOK_initTree {σ : Type} (R : RNG σ) (cfg : GenCfg) (ext : ExtFS)
    {st : BuildState σ} (he : initTree R cfg ext = .ok st) : stOK st := by
  unfold initTree at he
  split_ifs at he with hmd
  · revert he
    cases pyStrAddInt ("MaxDirDepth must be positive: ") cfg.maxDepth <;>
      intro he <;> cases he
  · unfold createNodes at he
    have h0 : stOK (⟨.dir [], [[]], R.initFn cfg.randseed⟩ : BuildState σ) := by
      constructor
      · rfl
      · intro p hp
        rw [List.mem_singleton] at hp
        subst hp
        rfl
    have h1 := stOK_poolPop (stOK_createDirs R cfg.maxDepth
      cfg.dirsNum.toNat h0)
    rcases h3 : createFiles R cfg.maxDepth cfg.huge
        (poolPop (createDirs R cfg.maxDepth cfg.dirsNum.toNat
          (⟨.dir [], [[]], R.initFn cfg.randseed⟩ : BuildState σ))) with e | st3
    all_goals rw [h3] at he
    · rw [exbind_error] at he
      cases he
    rw [exbind_ok] at he
    have h3OK := stOK_createFiles R cfg.maxDepth cfg.huge h1 h3
    rcases h4 : createFiles R cfg.maxDepth cfg.large st3 with e | st4
    all_goals rw [h4] at he
    · rw [exbind_error] at he
      cases he
    rw [exbind_ok] at he
    have h4OK := stOK_createFiles R cfg.maxDepth cfg.large h3OK h4
    rcases h5 : createFiles R cfg.maxDepth cfg.medium st4 with e | st5
    all_goals rw [h5] at he
    · rw [exbind_error] at he
      cases he
    rw [exbind_ok] at he
    have h5OK := stOK_createFiles R cfg.maxDepth cfg.medium h4OK h5
    rcases h6 : createFiles R cfg.maxDepth cfg.small st5 with e | st6
    all_goals rw [h6] at he
    · rw [exbind_error] at he
      cases he
    rw [exbind_ok] at he
    have h6OK := stOK_createFiles R cfg.maxDepth cfg.small h5OK h6
    exact stOK_createCopies R cfg ext h6OK he

theorem fileCountForest_append : ∀ (l1 l2 : List RNode),
    fileCountForest (l1 ++ l2) = fileCountForest l1 + fileCountForest l2 := by
  intro l1 l2
  induction l1 with
  | nil => simp [fileCountForest]
  | cons c cs ih =>
    rw [List.cons_append, fileCountForest, fileCountForest, ih]
    omega

theorem fileCountForest_set : ∀ (cs : List RNode) (i : ℕ) (y : RNode),
    i < cs.length →
    fileCountForest (cs.set i y) + fileCount (cs.getD i (.dir [])) =
      fileCountForest cs + fileCount y := by
  intro cs
  induction cs with
  | nil => intro i y h; simp at h
  | cons c cs ih =>
    intro i y h
    cases i with
    | zero =>
      simp only [List.set_cons_zero, List.getD_cons_zero, fileCountForest]
      omega
    | succ j =>
      simp only [List.set_cons_succ, List.getD_cons_succ, fileCountForest]
      have := ih j y (by simpa using h)
      omega

theorem fileCount_appendChild : ∀ (p : TPos) (t node : RNode),
    isDirAt t p = true →
    fileCount (appendChild t p node) = fileCount t + fileCount node := by
  intro p
  induction p with
  | nil =>
    intro t node h
    cases t with
    | dir cs =>
      rw [appendChild, fileCount, fileCount, fileCountForest_append,
        fileCountForest, fileCountForest]
      omega
    | file seed size => simp [isDirAt] at h
    | copy src => simp [isDirAt] at h
  | cons i rest ih =>
    intro t node h
    cases t with
    | dir cs =>
      rw [isDirAt, Bool.and_eq_true, decide_eq_true_eq] at h
      obtain ⟨hb, hsub⟩ := h
      rw [appendChild, fileCount, fileCount]
      have h1 := fileCountForest_set cs i
        (appendChild (cs.getD i (.dir [])) rest node) hb
      have h2 := ih (cs.getD i (.dir [])) node hsub
      omega
    | file seed size => simp [isDirAt] at h
    | copy src => simp [isDirAt] at h

theorem fileCount_attachAt {σ : Type} (maxD : ℤ) (node : RNode) (p : TPos)
    (st : BuildState σ) (s2 : σ) (hp : isDirAt st.root p = true) :
    fileCount (attachAt maxD node p st s2).root =
      fileCount st.root + fileCount node := by
  unfold attachAt
  split_ifs with hd
  · have hp2 : isDirAt st.root (dirParentPos maxD p) = true := by
      unfold dirParentPos
      split_ifs
      · exact isDirAt_dropLast p st.root hp
      · exact hp
    exact fileCount_appendChild _ _ _ hp2
  · exact fileCount_appendChild _ _ _ hp

theorem fileCount_attach {σ : Type} (R : RNG σ) (maxD : ℤ) (node : RNode)
    {st : BuildState σ} (h : stOK st) :
    fileCount (attach R maxD node st).root =
      fileCount st.root + fileCount node :=
  fileCount_attachAt maxD node _ st _ (stOK_pool_getD h _)

theorem fileCount_attachN {σ : Type} (R : RNG σ) (maxD : ℤ) (seed size : ℤ) :
    ∀ (n : ℕ) {st : BuildState σ}, stOK st →
      fileCount (attachN R maxD (.file seed size) n st).root =
        fileCount st.root + n := by
  intro n
  induction n with
  | zero => intro st h; rfl
  | succ k ih =>
    intro st h
    rw [attachN, ih (stOK_attach R maxD _ h),
      fileCount_attach R maxD _ h]
    show fileCount st.root + 1 + k = fileCount st.root + (k + 1)
    omega

theorem fileCount_fileStep {σ : Type} (R : RNG σ) (maxD : ℤ) (cat : SizeCat)
    (nf nc nl : ℤ) {st : BuildState σ} (h : stOK st) (hnf : 0 < nf) :
    fileCount (fileStep R maxD cat nf nc nl st).2.2.2.root +
      ((fileStep R maxD cat nf nc nl st).1).toNat =
      fileCount st.root + nf.toNat := by
  have hB := stOK_baseAttach R maxD cat h
  have hcount : fileCount (baseAttach R maxD cat st).2.2.root =
      fileCount st.root + 1 := by
    unfold baseAttach
    dsimp only
    have hOK2 : stOK ({ st with
        rng := (R.randIntegersFn (R.randomSeedFn st.rng).2 cat.catMin
          cat.catMax).2 }) := ⟨h.1, h.2⟩
    rw [fileCount_attach R maxD _ hOK2]
    rfl
  unfold fileStep
  rcases hBA : baseAttach R maxD cat st with ⟨seed, size, st1⟩
  rw [hBA] at hB hcount
  dsimp only at hB hcount ⊢
  have hcd := cloneDecision_nonneg R (nf - 1) nc nl st1.rng
  rcases hCD : cloneDecision R (nf - 1) nc nl st1.rng with ⟨copies, nc2, nl2, s3⟩
  rw [hCD] at hcd
  dsimp only at hcd ⊢
  have hOK1 : stOK ({ st1 with rng := s3 }) := ⟨hB.1, hB.2⟩
  rw [fileCount_attachN R maxD seed size _ hOK1]
  show fileCount st1.root + (min copies (nf - 1)).toNat +
    (nf - 1 - min copies (nf - 1)).toNat = fileCount st.root + nf.toNat
  omega

theorem fileCount_createFilesLoop {σ : Type} (R : RNG σ) (maxD : ℤ)
    (cat : SizeCat) : ∀ (nf nc nl : ℤ) (st : BuildState σ), stOK st →
    fileCount (createFilesLoop R maxD cat nf nc nl st).root =
      fileCount st.root + nf.toNat := by
  intro nf nc nl st
  induction nf, nc, nl, st using createFilesLoop.induct R maxD cat with
  | case1 nf nc nl st hnf =>
    intro h
    rw [createFilesLoop_nonpos R maxD cat _ _ _ hnf]
    omega
  | case2 nf nc nl st hnf ih =>
    intro h
    rw [createFilesLoop, if_neg hnf]
    rw [ih (stOK_fileStep R maxD cat nf nc nl h)]
    have h1 := fileCount_fileStep R maxD cat nf nc nl h (by omega)
    have h2 := fileStep_next_bounds R maxD cat nf nc nl st (by omega)
    omega

/-- C10: a size category with a nonnegative file count and admissible
coalescence settings creates exactly category.num generated-file nodes,
base files and clones combined, independently of the random draws. -/
theorem c10_category_file_count {σ : Type} (R : RNG σ) (maxD : ℤ)
    (cat : SizeCat) (st : BuildState σ) (hOK : stOK st) (_h0 : 0 ≤ cat.num)
    (h1 : cat.numCoalescent ≤ cat.num) (h2 : cat.coalescent ≤ cat.num) :
    createFiles R maxD cat st =
      .ok (createFilesLoop R maxD cat cat.num cat.numCoalescent
        cat.coalescent st) ∧
    fileCount (createFilesLoop R maxD cat cat.num cat.numCoalescent
      cat.coalescent st).root = fileCount st.root + cat.num.toNat := by
  constructor
  · unfold createFiles
    rw [if_neg (by omega)]
  · exact fileCount_createFilesLoop R maxD cat _ _ _ st hOK

theorem c10_category_file_count_witness :
    (stOK (⟨.dir [], [[]], ()⟩ : BuildState Unit) ∧
      (0 : ℤ) ≤ 3 ∧ (0 : ℤ) ≤ 3 ∧ (0 : ℤ) ≤ 3) ∧
    (createFiles zeroRNG 100 (⟨10, 10, 3, 0, 0⟩ : SizeCat)
        (⟨.dir [], [[]], ()⟩ : BuildState Unit) =
      .ok (createFilesLoop zeroRNG 100 (⟨10, 10, 3, 0, 0⟩ : SizeCat) 3 0 0
        (⟨.dir [], [[]], ()⟩ : BuildState Unit)) ∧
    fileCount (createFilesLoop zeroRNG 100 (⟨10, 10, 3, 0, 0⟩ : SizeCat) 3 0 0
      (⟨.dir [], [[]], ()⟩ : BuildState Unit)).root =
      fileCount (RNode.dir []) + (3 : ℤ).toNat) :=
  ⟨⟨⟨rfl, by intro p hp; rw [List.mem_singleton] at hp; subst hp; rfl⟩,
      by decide, by decide, by decide⟩,
    c10_category_file_count zeroRNG 100 (⟨10, 10, 3, 0, 0⟩ : SizeCat)
      (⟨.dir [], [[]], ()⟩ : BuildState Unit)
      ⟨rfl, by intro p hp; rw [List.mem_singleton] at hp; subst hp; rfl⟩
      (by decide) (by decide) (by decide)⟩

/-- Clone-count policy exactly as the specification words it: while the
numCoalescent budget is positive, the clone count equals the budget
exactly when the remaining file count equals the budget and
min(budget, uniform_int(1, 3)) otherwise, and the budget drops by the
clone count; only when that budget is exhausted, a positive legacy
counter gives clone count uniform_int(1, 3) and drops by one; otherwise
the clone count is zero. -/
def specCloneCount {σ : Type} (R : RNG σ) (remaining budget legacy : ℤ)
    (s : σ) : ℤ × ℤ × ℤ × σ :=
  if 0 < budget then
    if remaining = budget then (budget, budget - budget, legacy, s)
    else
      (min budget (R.randIntegersFn s 1 3).1,
        budget - min budget (R.randIntegersFn s 1 3).1, legacy,
        (R.randIntegersFn s 1 3).2)
  else if 0 < legacy then
    ((R.randIntegersFn s 1 3).1, budget, legacy - 1,
      (R.randIntegersFn s 1 3).2)
  else (0, budget, legacy, s)

/-- C6: the clone-count decision the code takes after each base file is
exactly the one the specification describes (specCloneCount applied to
the remaining file count after the base file), and the loop iteration
attaches exactly the clamped number min(clone count, remaining files) of
clones of the base node, with the budget already decremented by the
unclamped clone count. -/
theorem c6_coalescence_policy {σ : Type} (R : RNG σ) (maxDepth : ℤ)
    (cat : SizeCat) (numFiles numCoal numLegacy : ℤ) (st : BuildState σ) :
    (∀ (remaining budget legacy : ℤ) (s : σ),
      cloneDecision R remaining budget legacy s =
        specCloneCount R remaining budget legacy s) ∧
    fileStep R maxDepth cat numFiles numCoal numLegacy st =
      (numFiles - 1 -
          min (specCloneCount R (numFiles - 1) numCoal numLegacy
            (baseAttach R maxDepth cat st).2.2.rng).1 (numFiles - 1),
        (specCloneCount R (numFiles - 1) numCoal numLegacy
          (baseAttach R maxDepth cat st).2.2.rng).2.1,
        (specCloneCount R (numFiles - 1) numCoal numLegacy
          (baseAttach R maxDepth cat st).2.2.rng).2.2.1,
        attachN R maxDepth
          (.file (baseAttach R maxDepth cat st).1
            (baseAttach R maxDepth cat st).2.1)
          (min (specCloneCount R (numFiles - 1) numCoal numLegacy
            (baseAttach R maxDepth cat st).2.2.rng).1 (numFiles - 1)).toNat
          { (baseAttach R maxDepth cat st).2.2 with
              rng := (specCloneCount R (numFiles - 1) numCoal numLegacy
                (baseAttach R maxDepth cat st).2.2.rng).2.2.2 }) := by
  have heq : ∀ (remaining budget legacy : ℤ) (s : σ),
      cloneDecision R remaining budget legacy s =
        specCloneCount R remaining budget legacy s := by
    intro remaining budget legacy s
    rfl
  refine ⟨heq, ?_⟩
  unfold fileStep
  rcases hBA : baseAttach R maxDepth cat st with ⟨seed, size, st1⟩
  dsimp only
  rw [← heq]

theorem dirDepthsForest_append (d : ℕ) : ∀ (l1 l2 : List RNode),
    dirDepthsForest d (l1 ++ l2) =
      dirDepthsForest d l1 ++ dirDepthsForest d l2 := by
  intro l1 l2
  induction l1 with
  | nil => simp [dirDepthsForest]
  | cons c cs ih =>
    rw [List.cons_append, dirDepthsForest, dirDepthsForest, ih,
      List.append_assoc]

theorem mem_dirDepthsForest_set (d : ℕ) : ∀ (cs : List RNode) (j : ℕ)
    (y : RNode) (x : ℕ), x ∈ dirDepthsForest d (cs.set j y) →
    x ∈ dirDepthsForest d cs ∨ x ∈ dirDepths d y := by
  intro cs
  induction cs with
  | nil =>
    intro j y x h
    simp [dirDepthsForest] at h
  | cons c cs ih =>
    intro j y x h
    cases j with
    | zero =>
      rw [List.set_cons_zero, dirDepthsForest, List.mem_append] at h
      rcases h with h | h
      · exact Or.inr h
      · left
        rw [dirDepthsForest, List.mem_append]
        exact Or.inr h
    | succ k =>
      rw [List.set_cons_succ, dirDepthsForest, List.mem_append] at h
      rcases h with h | h
      · left
        rw [dirDepthsForest, List.mem_append]
        exact Or.inl h
      · rcases ih k y x h with h2 | h2
        · left
          rw [dirDepthsForest, List.mem_append]
          exact Or.inr h2
        · exact Or.inr h2

theorem mem_forest_of_mem_getD (d : ℕ) : ∀ (cs : List RNode) (i : ℕ) (x : ℕ),
    i < cs.length → x ∈ dirDepths d (cs.getD i (.dir [])) →
    x ∈ dirDepthsForest d cs := by
  intro cs
  induction cs with
  | nil =>
    intro i x h
    simp at h
  | cons c cs ih =>
    intro i x hb h
    cases i with
    | zero =>
      rw [List.getD_cons_zero] at h
      rw [dirDepthsForest, List.mem_append]
      exact Or.inl h
    | succ k =>
      rw [List.getD_cons_succ] at h
      rw [dirDepthsForest, List.mem_append]
      exact Or.inr (ih k x (by simpa using hb) h)

theorem dirDepths_appendChild_mem : ∀ (p : TPos) (t node : RNode) (d0 x : ℕ),
    x ∈ dirDepths d0 (appendChild t p node) →
    x ∈ dirDepths d0 t ∨ x ∈ dirDepths (d0 + p.length + 1) node := by
  intro p
  induction p with
  | nil =>
    intro t node d0 x h
    cases t with
    | dir cs =>
      rw [appendChild, dirDepths, dirDepthsForest_append, dirDepthsForest,
        dirDepthsForest] at h
      rw [dirDepths]
      rcases List.mem_cons.mp h with h | h
      · exact Or.inl (List.mem_cons.mpr (Or.inl h))
      · rw [List.mem_append] at h
        rcases h with h | h
        · exact Or.inl (List.mem_cons.mpr (Or.inr h))
        · rw [List.append_nil] at h
          right
          simpa using h
    | file seed size => exact Or.inl h
    | copy src => exact Or.inl h
  | cons i rest ih =>
    intro t node d0 x h
    cases t with
    | dir cs =>
      by_cases hb : i < cs.length
      · rw [appendChild, dirDepths] at h
        rcases List.mem_cons.mp h with h | h
        · exact Or.inl (by rw [dirDepths]; exact List.mem_cons.mpr (Or.inl h))
        · rcases mem_dirDepthsForest_set (d0 + 1) cs i _ x h with h2 | h2
          · exact Or.inl (by
              rw [dirDepths]
              exact List.mem_cons.mpr (Or.inr h2))
          · rcases ih (cs.getD i (.dir [])) node (d0 + 1) x h2 with h3 | h3
            · exact Or.inl (by
                rw [dirDepths]
                exact List.mem_cons.mpr
                  (Or.inr (mem_forest_of_mem_getD (d0 + 1) cs i x hb h3)))
            · right
              have harith : d0 + 1 + rest.length + 1 =
                  d0 + (i :: rest).length + 1 := by
                simp
                omega
              rw [← harith]
              exact h3
      · rw [appendChild, List.set_eq_of_length_le (by omega)] at h
        exact Or.inl h
    | file seed size => exact Or.inl h
    | copy src => exact Or.inl h

/-- Non-directory nodes contribute no directory depth. -/
theorem dirDepths_nondir {node : RNode} (h : node.isDir = false) (d : ℕ) :
    dirDepths d node = [] := by
  cases node with
  | dir cs => simp [RNode.isDir] at h
  | file seed size => rfl
  | copy src => rfl

/-- The depth invariant: every directory of the tree has depth at most
maxDepth, and every pool candidate position does too. -/
def depthsOK {σ : Type} (maxD : ℤ) (st : BuildState σ) : Prop :=
  (∀ x ∈ dirDepths 0 st.root, (x : ℤ) ≤ maxD) ∧
  (∀ p ∈ st.pool, ((p.length : ℤ) ≤ maxD))

theorem dirParentPos_len {maxD : ℤ} {p : TPos} (hm : 1 ≤ maxD)
    (hp : (p.length : ℤ) ≤ maxD) :
    ((dirParentPos maxD p).length : ℤ) + 1 ≤ maxD := by
  unfold dirParentPos
  split_ifs with h
  · rw [List.length_dropLast]
    omega
  · push_cast at h
    omega

theorem depthsOK_pool_getD {σ : Type} {maxD : ℤ} {st : BuildState σ}
    (h : depthsOK maxD st) (hm : 0 ≤ maxD) (i : ℕ) :
    ((st.pool.getD i []).length : ℤ) ≤ maxD := by
  by_cases hb : i < st.pool.length
  · have hmem : st.pool.getD i [] ∈ st.pool := by
      simp only [List.getD_eq_getElem?_getD, List.getElem?_eq_getElem hb,
        Option.getD_some]
      exact List.getElem_mem hb
    exact h.2 _ hmem
  · rw [List.getD_eq_getElem?_getD, List.getElem?_eq_none (by omega)]
    simpa using hm

theorem depthsOK_attachAt_dir {σ : Type} {maxD : ℤ} {p : TPos}
    {st : BuildState σ} (s2 : σ) (hm : 1 ≤ maxD)
    (hd : depthsOK maxD st) (hp : (p.length : ℤ) ≤ maxD) :
    depthsOK maxD (attachAt maxD (.dir []) p st s2) := by
  have hq := dirParentPos_len hm hp
  unfold attachAt
  rw [if_pos (by rfl)]
  constructor
  · intro x hx
    rcases dirDepths_appendChild_mem (dirParentPos maxD p) st.root
        (.dir []) 0 x hx with h | h
    · exact hd.1 x h
    · rw [dirDepths, dirDepthsForest, List.mem_singleton] at h
      subst h
      push_cast
      omega
  · intro q hqm
    rw [List.mem_append] at hqm
    rcases hqm with hqm | hqm
    · exact hd.2 q hqm
    · rw [List.mem_singleton] at hqm
      subst hqm
      rw [List.length_append, List.length_singleton]
      push_cast
      omega

theorem depthsOK_attachAt_other {σ : Type} {maxD : ℤ} (node : RNode)
    {p : TPos} {st : BuildState σ} (s2 : σ) (hnd : node.isDir = false)
    (hd : depthsOK maxD st) :
    depthsOK maxD (attachAt maxD node p st s2) := by
  unfold attachAt
  rw [if_neg (by rw [hnd]; exact Bool.false_ne_true)]
  constructor
  · intro x hx
    rcases dirDepths_appendChild_mem p st.root node 0 x hx with h | h
    · exact hd.1 x h
    · rw [dirDepths_nondir hnd] at h
      cases h
  · exact hd.2

theorem depthsOK_attach_dir {σ : Type} (R : RNG σ) {maxD : ℤ}
    {st : BuildState σ} (hm : 1 ≤ maxD) (hd : depthsOK maxD st) :
    depthsOK maxD (attach R maxD (.dir []) st) := by
  unfold attach
  exact depthsOK_attachAt_dir _ hm hd (depthsOK_pool_getD hd (by omega) _)

theorem depthsOK_attach_other {σ : Type} (R : RNG σ) {maxD : ℤ}
    (node : RNode) {st : BuildState σ} (hnd : node.isDir = false)
    (hd : depthsOK maxD st) :
    depthsOK maxD (attach R maxD node st) := by
  unfold attach
  exact depthsOK_attachAt_other node _ hnd hd

theorem depthsOK_createDirs {σ : Type} (R : RNG σ) {maxD : ℤ}
    (hm : 1 ≤ maxD) : ∀ (n : ℕ) {st : BuildState σ}, depthsOK maxD st →
      depthsOK maxD (createDirs R maxD n st) := by
  intro n
  induction n with
  | zero => intro st h; exact h
  | succ k ih => intro st h; exact ih (depthsOK_attach_dir R hm h)

theorem depthsOK_attachN_file {σ : Type} (R : RNG σ) {maxD : ℤ}
    (seed size : ℤ) : ∀ (n : ℕ) {st : BuildState σ}, depthsOK maxD st →
      depthsOK maxD (attachN R maxD (.file seed size) n st) := by
  intro n
  induction n with
  | zero => intro st h; exact h
  | succ k ih =>
    intro st h
    exact ih (depthsOK_attach_other R _ rfl h)

theorem depthsOK_baseAttach {σ : Type} (R : RNG σ) {maxD : ℤ}
    (cat : SizeCat) {st : BuildState σ} (h : depthsOK maxD st) :
    depthsOK maxD (baseAttach R maxD cat st).2.2 := by
  unfold baseAttach
  exact depthsOK_attach_other R _ rfl ⟨h.1, h.2⟩

theorem depthsOK_fileStep {σ : Type} (R : RNG σ) {maxD : ℤ} (cat : SizeCat)
    (nf nc nl : ℤ) {st : BuildState σ} (h : depthsOK maxD st) :
    depthsOK maxD (fileStep R maxD cat nf nc nl st).2.2.2 := by
  have hB := depthsOK_baseAttach R cat h
  unfold fileStep
  rcases hBA : baseAttach R maxD cat st with ⟨seed, size, st1⟩
  rw [hBA] at hB
  dsimp only
  rcases hCD : cloneDecision R (nf - 1) nc nl st1.rng with ⟨copies, nc2, nl2, s3⟩
  dsimp only
  exact depthsOK_attachN_file R seed size _ ⟨hB.1, hB.2⟩

theorem depthsOK_createFilesLoop {σ : Type} (R : RNG σ) {maxD : ℤ}
    (cat : SizeCat) : ∀ (nf nc nl : ℤ) (st : BuildState σ),
      depthsOK maxD st → depthsOK maxD (createFilesLoop R maxD cat nf nc nl st) := by
  intro nf nc nl st
  induction nf, nc, nl, st using createFilesLoop.induct R maxD cat with
  | case1 nf nc nl st hnf =>
    intro h
    rw [createFilesLoop_nonpos R maxD cat _ _ _ hnf]
    exact h
  | case2 nf nc nl st hnf ih =>
    intro h
    rw [createFilesLoop, if_neg hnf]
    exact ih (depthsOK_fileStep R cat nf nc nl h)

theorem depthsOK_copyLoop {σ : Type} (R : RNG σ) {maxD : ℤ}
    (fl : List String) : ∀ (n : ℕ) {st : BuildState σ}, depthsOK maxD st →
      depthsOK maxD (copyLoop R maxD fl n st) := by
  intro n
  induction n with
  | zero => intro st h; exact h
  | succ k ih =>
    intro st h
    exact ih (depthsOK_attach_other R _ rfl ⟨h.1, h.2⟩)

theorem depthsOK_poolPop {σ : Type} {maxD : ℤ} {st : BuildState σ}
    (h : depthsOK maxD st) : depthsOK maxD (poolPop st) := by
  unfold poolPop
  split_ifs
  · exact ⟨h.1, fun p hp => h.2 p (List.mem_of_mem_tail hp)⟩
  · exact h

theorem depthsOK_createFiles {σ : Type} (R : RNG σ) {maxD : ℤ}
    (cat : SizeCat) {st st2 : BuildState σ} (h : depthsOK maxD st)
    (he : createFiles R maxD cat st = .ok st2) : depthsOK maxD st2 := by
  unfold createFiles at he
  by_cases hc : (cat.numCoalescent > cat.num ∨ cat.coalescent > cat.num)
  · rw [if_pos hc] at he
    cases he
  · rw [if_neg hc] at he
    cases he
    exact depthsOK_createFilesLoop R cat _ _ _ _ h

theorem depthsOK_createCopies {σ : Type} (R : RNG σ) (cfg : GenCfg)
    (ext : ExtFS) {st st2 : BuildState σ} (h : depthsOK cfg.maxDepth st)
    (he : createCopies R cfg ext st = .ok st2) : depthsOK cfg.maxDepth st2 := by
  unfold createCopies at he
  by_cases hc1 : cfg.copiedNum = 0
  · rw [if_pos hc1] at he
    cases he
    exact h
  · rw [if_neg hc1] at he
    by_cases hc2 : ((ext.walk cfg.copiedSourceDir).filter ext.isFile) = []
    · rw [if_pos hc2] at he
      cases he
    · rw [if_neg hc2] at he
      cases he
      exact depthsOK_copyLoop R _ _ h

theorem depthsOK_initTree {σ : Type} (R : RNG σ) (cfg : GenCfg) (ext : ExtFS)
    {st : BuildState σ} (hm : 1 ≤ cfg.maxDepth)
    (he : initTree R cfg ext = .ok st) : depthsOK cfg.maxDepth st := by
  unfold initTree at he
  split_ifs at he with hmd
  · revert he
    cases pyStrAddInt ("MaxDirDepth must be positive: ") cfg.maxDepth <;>
      intro he <;> cases he
  · unfold createNodes at he
    have h0 : depthsOK cfg.maxDepth
        (⟨.dir [], [[]], R.initFn cfg.randseed⟩ : BuildState σ) := by
      constructor
      · intro x hx
        rw [dirDepths, dirDepthsForest, List.mem_singleton] at hx
        subst hx
        simpa using (by omega : (0 : ℤ) ≤ cfg.maxDepth)
      · intro p hp
        rw [List.mem_singleton] at hp
        subst hp
        simpa using (by omega : (0 : ℤ) ≤ cfg.maxDepth)
    have h1 := depthsOK_poolPop (depthsOK_createDirs R hm
      cfg.dirsNum.toNat h0)
    rcases h3 : createFiles R cfg.maxDepth cfg.huge
        (poolPop (createDirs R cfg.maxDepth cfg.dirsNum.toNat
          (⟨.dir [], [[]], R.initFn cfg.randseed⟩ : BuildState σ))) with e | st3
    all_goals rw [h3] at he
    · rw [exbind_error] at he
      cases he
    rw [exbind_ok] at he
    have h3OK := depthsOK_createFiles R cfg.huge h1 h3
    rcases h4 : createFiles R cfg.maxDepth cfg.large st3 with e | st4
    all_goals rw [h4] at he
    · rw [exbind_error] at he
      cases he
    rw [exbind_ok] at he
    have h4OK := depthsOK_createFiles R cfg.large h3OK h4
    rcases h5 : createFiles R cfg.maxDepth cfg.medium st4 with e | st5
    all_goals rw [h5] at he
    · rw [exbind_error] at he
      cases he
    rw [exbind_ok] at he
    have h5OK := depthsOK_createFiles R cfg.medium h4OK h5
    rcases h6 : createFiles R cfg.maxDepth cfg.small st5 with e | st6
    all_goals rw [h6] at he
    · rw [exbind_error] at he
      cases he
    rw [exbind_ok] at he
    have h6OK := depthsOK_createFiles R cfg.small h5OK h6
    exact depthsOK_createCopies R cfg ext h6OK he

/-- Configuration for the amended depth bound: one directory, maxDepth 1,
nothing else. -/
def c3aCfg : GenCfg :=
  ⟨zeroCat, zeroCat, zeroCat, zeroCat, 0, "", 1, 1, 0, 4096,
    false, false, true, "", 7⟩

theorem c3a_run : initTree zeroRNG c3aCfg emptyExt =
    .ok (⟨.dir [.dir []], [[0]], ()⟩ : BuildState Unit) := by
  unfold initTree
  rw [if_neg (by decide)]
  unfold createNodes
  rw [show poolPop (createDirs zeroRNG c3aCfg.maxDepth c3aCfg.dirsNum.toNat
    ({ root := .dir [], pool := [[]],
       rng := zeroRNG.initFn c3aCfg.randseed } : BuildState Unit)) =
    (⟨.dir [.dir []], [[0]], ()⟩ : BuildState Unit) from rfl]
  rw [show c3aCfg.huge = zeroCat from rfl, show c3aCfg.large = zeroCat from rfl,
    show c3aCfg.medium = zeroCat from rfl, show c3aCfg.small = zeroCat from rfl]
  rw [createFiles_zeroCat]
  show (createFiles zeroRNG c3aCfg.maxDepth zeroCat _).bind _ = _
  rw [createFiles_zeroCat]
  show (createFiles zeroRNG c3aCfg.maxDepth zeroCat _).bind _ = _
  rw [createFiles_zeroCat]
  show (createFiles zeroRNG c3aCfg.maxDepth zeroCat _).bind _ = _
  rw [createFiles_zeroCat]
  show createCopies zeroRNG c3aCfg emptyExt _ = _
  rw [createCopies_zero zeroRNG c3aCfg emptyExt _ (by decide)]

/-- C3 (amended): for every configuration with maxDepth at least 1, every
directory of the built tree sits at depth at most maxDepth, and whenever
a drawn parent directory is non-root (depth > 0) and has depth at least
maxDepth, the attachment position is rewritten to that parent's parent.
The claim as stated, with maxDepth >= 0, fails at maxDepth = 0: the
reattachment guard requires parent.depth > 0, so the root (depth 0)
receives a child directory at depth 1 > 0 = maxDepth. -/
theorem c3_depth_bound_amended {σ : Type} (R : RNG σ) (cfg : GenCfg)
    (ext : ExtFS) {st : BuildState σ} (hm : 1 ≤ cfg.maxDepth)
    (he : initTree R cfg ext = .ok st) :
    (∀ x ∈ dirDepths 0 st.root, (x : ℤ) ≤ cfg.maxDepth) ∧
    (∀ p : TPos, 0 < p.length → cfg.maxDepth ≤ (p.length : ℤ) →
      dirParentPos cfg.maxDepth p = p.dropLast) := by
  refine ⟨(depthsOK_initTree R cfg ext hm he).1, ?_⟩
  intro p h1 h2
  unfold dirParentPos
  rw [if_pos ⟨h1, h2⟩]

theorem c3_depth_bound_amended_witness :
    (1 : ℤ) ≤ c3aCfg.maxDepth ∧
    initTree zeroRNG c3aCfg emptyExt =
      .ok (⟨.dir [.dir []], [[0]], ()⟩ : BuildState Unit) ∧
    ((∀ x ∈ dirDepths 0
        ((⟨.dir [.dir []], [[0]], ()⟩ : BuildState Unit)).root,
        (x : ℤ) ≤ c3aCfg.maxDepth) ∧
     (∀ p : TPos, 0 < p.length → c3aCfg.maxDepth ≤ (p.length : ℤ) →
       dirParentPos c3aCfg.maxDepth p = p.dropLast)) :=
  ⟨by decide, c3a_run,
    c3_depth_bound_amended zeroRNG c3aCfg emptyExt (by decide) c3a_run⟩

/-! ### On-disk filesystem, writer and verifier -/

/-- The on-disk state the run manipulates inside the root directory: the
directories created so far and the regular files with their byte
content.  Lists in creation order; flookup takes the first entry for a
path and fsWrite replaces any previous entry. -/
structure FS where
  dirs : List FPath
  files : List (FPath × List ℕ)
deriving DecidableEq

/-- os.mkdir. -/
def fsMkdir (fs : FS) (p : FPath) : FS := ⟨fs.dirs ++ [p], fs.files⟩

/-- Creating a regular file with the given bytes: open "wb" truncates any
previous content and the writes fill it. -/
def fsWrite (fs : FS) (p : FPath) (c : List ℕ) : FS :=
  ⟨fs.dirs, fs.files.filter (fun q => !(q.1 == p)) ++ [(p, c)]⟩

/-- Content of the regular file at a path, if one exists
(os.path.isfile and open "rb"). -/
def flookup (fs : FS) (p : FPath) : Option (List ℕ) :=
  (fs.files.find? (fun q => q.1 == p)).map (fun q => q.2)

/-- genTree root handling: os.makedirs(rootDir) when the root directory
does not exist yet. -/
def ensureRoot (fs : FS) (rootDir : FPath) : FS :=
  if rootDir ∈ fs.dirs then fs else fsMkdir fs rootDir

mutual
/-- Node.write for a non-root node.  A DirNode creates its directory and
writes its children in order.  A FileNode opens its path for binary
writing; with gen.truncate set, FileNode.truncate runs first and for
fileSize > 0 it ends in file.write('\0'), a str written to a binary-mode
file, which raises TypeError in Python 3; otherwise the chunks of the
generator are streamed in order from offset 0, so the final content is
their concatenation.  A CopyNode copies the source file content
(shutil.copyfile). -/
def writeNode {σ : Type} (R : RNG σ) (cfg : GenCfg) (ext : ExtFS)
    (fs : FS) : NNode → Except PyExc FS
  | .dir p cs => writeList R cfg ext (fsMkdir fs p) cs
  | .file p seed size =>
    if cfg.truncateFlag ∧ 0 < size then
      match pyWriteStrToBinaryFile with
      | .error e => .error e
      | .ok _ => .ok (fsWrite fs p
          (generateChunks R seed size cfg.percentage cfg.blockSize).flatten)
    else .ok (fsWrite fs p
      (generateChunks R seed size cfg.percentage cfg.blockSize).flatten)
  | .copy p src => .ok (fsWrite fs p (ext.content src))

/-- DirNode.write loop over the children, threading the disk state. -/
def writeList {σ : Type} (R : RNG σ) (cfg : GenCfg) (ext : ExtFS)
    (fs : FS) : List NNode → Except PyExc FS
  | [] => .ok fs
  | n :: ns =>
    match writeNode R cfg ext fs n with
    | .error e => .error e
    | .ok fs2 => writeList R cfg ext fs2 ns
end

/-- DirNode.write at the tree root: the root directory itself is not
created (isRoot short-circuits the mkdir), only the children are
written. -/
def writeRoot {σ : Type} (R : RNG σ) (cfg : GenCfg) (ext : ExtFS)
    (fs : FS) : NNode → Except PyExc FS
  | .dir _ cs => writeList R cfg ext fs cs
  | n => writeNode R cfg ext fs n

/-- FileNode.verifyContents: the loop over the generated chunks, each
compared by verifyChunk against the next bytes read from the file.  A
read of the expected length that differs in content reaches the mismatch
logging, whose expected.encode('hex') raises AttributeError on bytes in
Python 3; a short read returns False. -/
def verifyChunksLoop : List (List ℕ) → List ℕ → Except PyExc Bool
  | [], _ => .ok true
  | c :: cs, rest =>
    if rest.take c.length = c then verifyChunksLoop cs (rest.drop c.length)
    else if (rest.take c.length).length ≠ c.length then .ok false
    else
      match pyBytesEncodeHex c with
      | .error e => .error e
      | .ok _ => .ok false

mutual
/-- Node.verify.  A DirNode returns False when its directory is missing
and otherwise verifies every child (all evaluates the full comprehension,
so an exception in any child propagates).  A FileNode checks existence,
then the size, then the contents against the regenerated chunks.  A
CopyNode checks that source and destination are regular files with equal
content (filecmp.cmp with shallow=False). -/
def verifyNode {σ : Type} (R : RNG σ) (cfg : GenCfg) (ext : ExtFS)
    (fs : FS) : NNode → Except PyExc Bool
  | .dir p cs =>
    if p ∈ fs.dirs then verifyList R cfg ext fs cs else .ok false
  | .file p seed size =>
    match flookup fs p with
    | none => .ok false
    | some content =>
      if (content.length : ℤ) ≠ size then .ok false
      else verifyChunksLoop
        (generateChunks R seed size cfg.percentage cfg.blockSize) content
  | .copy p src =>
    if ext.isFile src then
      match flookup fs p with
      | none => .ok false
      | some content => .ok (content == ext.content src)
    else .ok false

/-- The comprehension of DirNode.verify over the children. -/
def verifyList {σ : Type} (R : RNG σ) (cfg : GenCfg) (ext : ExtFS)
    (fs : FS) : List NNode → Except PyExc Bool
  | [] => .ok true
  | n :: ns =>
    match verifyNode R cfg ext fs n with
    | .error e => .error e
    | .ok b =>
      match verifyList R cfg ext fs ns with
      | .error e => .error e
      | .ok b2 => .ok (b && b2)
end

/-- genTree in generation mode: build and name the tree in memory, make
sure the root directory exists, then write the tree to disk. -/
def generate {σ : Type} (R : RNG σ) (cfg : GenCfg) (ext : ExtFS)
    (rootDir : FPath) (fs0 : FS) : Except PyExc FS :=
  match buildNamed R cfg ext rootDir with
  | .error e => .error e
  | .ok root => writeRoot R cfg ext (ensureRoot fs0 rootDir) root

/-- genTree in verify mode: rebuild and name the same tree in memory
from the same seed and configuration, then verify the disk state against
it. -/
def verifyRun {σ : Type} (R : RNG σ) (cfg : GenCfg) (ext : ExtFS)
    (rootDir : FPath) (fs : FS) : Except PyExc Bool :=
  match buildNamed R cfg ext rootDir with
  | .error e => .error e
  | .ok root => verifyNode R cfg ext (ensureRoot fs rootDir) root

/-- Configuration with the truncate option set and everything else
inert. -/
def c9Cfg : GenCfg :=
  ⟨zeroCat, zeroCat, zeroCat, zeroCat, 0, "", 0, 1, 0, 4096,
    false, true, true, "", 42⟩

/-- C9 (code bug): for every GeneratedFile written with the truncate
option set and fileSize > 0, the writer never streams the chunks:
FileNode.truncate pre-truncates the open file and then runs
file.write('\0') with a one-character str on a file opened in binary
mode, which raises TypeError in Python 3, so the write aborts before any
chunk is written and no file with the chunk concatenation as content is
produced. -/
theorem c9_truncate_write_typeError {σ : Type} (R : RNG σ) (cfg : GenCfg)
    (ext : ExtFS) (fs : FS) (p : FPath) (seed size : ℤ)
    (ht : cfg.truncateFlag = true) (hs : 0 < size) :
    writeNode R cfg ext fs (.file p seed size) = .error PyExc.typeError := by
  rw [writeNode, if_pos ⟨ht, hs⟩]
  rfl

theorem c9_truncate_write_typeError_witness :
    c9Cfg.truncateFlag = true ∧ (0 : ℤ) < 1 ∧
    writeNode zeroRNG c9Cfg emptyExt (⟨[[]], []⟩ : FS) (.file ["0"] 0 1) =
      .error PyExc.typeError :=
  ⟨rfl, by decide,
    c9_truncate_write_typeError zeroRNG c9Cfg emptyExt (⟨[[]], []⟩ : FS)
      ["0"] 0 1 rfl (by decide)⟩

/-- Scenario A/B small category: three files of exactly 10 bytes. -/
def c7Small : SizeCat := ⟨10, 10, 3, 0, 0⟩

/-- Scenario A/B configuration: seed 42, no subdirectories, three small
files of 10 bytes each, no compressibility. -/
def c7Cfg : GenCfg :=
  ⟨zeroCat, zeroCat, zeroCat, c7Small, 0, "", 0, 1, 0, 4096,
    false, false, true, "", 42⟩

theorem c7_files_loop : createFilesLoop zeroRNG 1 c7Small 3 0 0
    (⟨.dir [], [[]], ()⟩ : BuildState Unit) =
    (⟨.dir [.file 0 10, .file 0 10, .file 0 10], [[]], ()⟩ :
      BuildState Unit) := by
  rw [createFilesLoop, if_neg (by norm_num)]
  show createFilesLoop zeroRNG 1 c7Small 2 0 0
    (⟨.dir [.file 0 10], [[]], ()⟩ : BuildState Unit) = _
  rw [createFilesLoop, if_neg (by norm_num)]
  show createFilesLoop zeroRNG 1 c7Small 1 0 0
    (⟨.dir [.file 0 10, .file 0 10], [[]], ()⟩ : BuildState Unit) = _
  rw [createFilesLoop, if_neg (by norm_num)]
  show createFilesLoop zeroRNG 1 c7Small 0 0 0
    (⟨.dir [.file 0 10, .file 0 10, .file 0 10], [[]], ()⟩ :
      BuildState Unit) = _
  rw [createFilesLoop_nonpos zeroRNG 1 c7Small 0 0 _ (by norm_num)]

/-- Evaluation of createNodes for a configuration whose first three size
categories are empty and with no copy nodes. -/
theorem createNodes_eval {σ : Type} (R : RNG σ) (cfg : GenCfg) (ext : ExtFS)
    (st stA stB : BuildState σ)
    (h0 : poolPop (createDirs R cfg.maxDepth cfg.dirsNum.toNat st) = stA)
    (hh : cfg.huge = zeroCat) (hl : cfg.large = zeroCat)
    (hm : cfg.medium = zeroCat)
    (hs : createFiles R cfg.maxDepth cfg.small stA = .ok stB)
    (hc : cfg.copiedNum = 0) :
    createNodes R cfg ext st = .ok stB := by
  unfold createNodes
  rw [h0, hh, createFiles_zeroCat]
  show (createFiles R cfg.maxDepth cfg.large stA).bind _ = _
  rw [hl, createFiles_zeroCat]
  show (createFiles R cfg.maxDepth cfg.medium stA).bind _ = _
  rw [hm, createFiles_zeroCat]
  show (createFiles R cfg.maxDepth cfg.small stA).bind _ = _
  rw [hs]
  show createCopies R cfg ext stB = _
  exact createCopies_zero R cfg ext stB hc

theorem c7_build : initTree zeroRNG c7Cfg emptyExt =
    .ok (⟨.dir [.file 0 10, .file 0 10, .file 0 10], [[]], ()⟩ :
      BuildState Unit) := by
  unfold initTree
  rw [if_neg (by decide)]
  refine createNodes_eval zeroRNG c7Cfg emptyExt _
    (⟨.dir [], [[]], ()⟩ : BuildState Unit) _ rfl rfl rfl rfl ?_ rfl
  show createFiles zeroRNG 1 c7Small
    (⟨.dir [], [[]], ()⟩ : BuildState Unit) = _
  unfold createFiles
  rw [if_neg (by norm_num [c7Small])]
  show Except.ok (createFilesLoop zeroRNG 1 c7Small 3 0 0
    (⟨.dir [], [[]], ()⟩ : BuildState Unit)) = _
  rw [c7_files_loop]

/-- The named Scenario A tree: three 10-byte files directly in the root,
named 0, 1 and 2. -/
def c7tree : NNode :=
  .dir [] [.file ["0"] 0 10, .file ["1"] 0 10, .file ["2"] 0 10]

theorem c7_named : buildNamed zeroRNG c7Cfg emptyExt [] = .ok c7tree := by
  unfold buildNamed
  rw [c7_build]
  rfl

/-- Disk state before generation: just the root directory. -/
def c7fsStart : FS := ⟨[[]], []⟩

/-- Disk state Scenario A generation produces: the three files, each ten
zero bytes under the zero oracle. -/
def c7fsWritten : FS :=
  ⟨[[]], [(["0"], List.replicate 10 0), (["1"], List.replicate 10 0),
    (["2"], List.replicate 10 0)]⟩

/-- The same disk state with exactly one byte flipped inside file 1: its
first byte reads 1 instead of 0. -/
def c7fsFlipped : FS :=
  ⟨[[]], [(["0"], List.replicate 10 0), (["1"], 1 :: List.replicate 9 0),
    (["2"], List.replicate 10 0)]⟩

/-- C7 (code bug): Scenario B.  Generation with the Scenario A
configuration succeeds and the untouched tree verifies, but after
flipping one byte inside file 1 the verification does not return failure
with one reported mismatch: the mismatch logging evaluates
expected.encode('hex') on a bytes value, which raises AttributeError in
Python 3, so the traversal aborts with an exception at the first
corrupted chunk instead of reporting the mismatch and returning
False. -/
theorem c7_corruption_aborts_verification :
    generate zeroRNG c7Cfg emptyExt [] c7fsStart = .ok c7fsWritten ∧
    verifyRun zeroRNG c7Cfg emptyExt [] c7fsWritten = .ok true ∧
    verifyRun zeroRNG c7Cfg emptyExt [] c7fsFlipped =
      .error PyExc.attributeError := by
  refine ⟨?_, ?_, ?_⟩
  · unfold generate
    rw [c7_named]
    rfl
  · unfold verifyRun
    rw [c7_named]
    rfl
  · unfold verifyRun
    rw [c7_named]
    rfl

/-! ### Round-trip machinery -/

theorem flookup_fsWrite_ne (fs : FS) (p q : FPath) (c : List ℕ)
    (h : q ≠ p) : flookup (fsWrite fs p c) q = flookup fs q := by
  unfold flookup fsWrite
  simp only
  rw [List.find?_append]
  have h2 : List.find? (fun r => r.1 == q) [(p, c)] = none := by
    rw [List.find?_cons]
    have hpq : ((p, c).1 == q) = false := by
      simp only [beq_eq_false_iff_ne, ne_eq]
      exact fun hc => h hc.symm
    rw [hpq]
    rfl
  have h3 : List.find? (fun r => r.1 == q) (fs.files.filter
      (fun r => !(r.1 == p))) = List.find? (fun r => r.1 == q) fs.files := by
    induction fs.files with
    | nil => rfl
    | cons a as ih =>
      by_cases hap : a.1 = p
      · rw [List.filter_cons]
        have hb : (!(a.1 == p)) = false := by simp [hap]
        rw [hb]
        simp only [Bool.false_eq_true, if_false]
        rw [ih]
        have hq : (a.1 == q) = false := by
          simp only [beq_eq_false_iff_ne, ne_eq, hap]
          exact fun hc => h hc.symm
        rw [List.find?_cons, hq]
      · rw [List.filter_cons]
        have hb : (!(a.1 == p)) = true := by simp [hap]
        rw [hb]
        simp only [if_true]
        rw [List.find?_cons, List.find?_cons]
        cases hq : (a.1 == q) with
        | true => rfl
        | false => exact ih
  rw [h3, h2]
  cases List.find? (fun r => r.1 == q) fs.files <;> rfl

theorem flookup_fsWrite_self (fs : FS) (p : FPath) (c : List ℕ) :
    flookup (fsWrite fs p c) p = some c := by
  unfold flookup fsWrite
  simp only
  rw [List.find?_append]
  have h3 : List.find? (fun r => r.1 == p) (fs.files.filter
      (fun r => !(r.1 == p))) = none := by
    rw [List.find?_eq_none]
    intro x hx
    have hm := List.of_mem_filter hx
    simpa using hm
  rw [h3]
  simp [List.find?, beq_iff_eq]

mutual
/-- The paths of all regular files (generated and copied) of a named
subtree, in write order. -/
def fpathsN : NNode → List FPath
  | .dir _ cs => fpathsF cs
  | .file p _ _ => [p]
  | .copy p _ => [p]

/-- The regular-file paths of a named forest. -/
def fpathsF : List NNode → List FPath
  | [] => []
  | n :: ns => fpathsN n ++ fpathsF ns
end

mutual
/-- Payload validity of a named subtree: generated files carry a
nonnegative size small enough for the binary64 bounds, and copies point
at existing regular source files. -/
def goodN (ext : ExtFS) : NNode → Prop
  | .dir _ cs => goodF ext cs
  | .file _ _ size => 0 ≤ size ∧ size ≤ 2 ^ 51
  | .copy _ src => ext.isFile src = true

/-- Payload validity of a named forest. -/
def goodF (ext : ExtFS) : List NNode → Prop
  | [] => True
  | n :: ns => goodN ext n ∧ goodF ext ns
end

mutual
/-- Payload validity of an unnamed subtree. -/
def treeOK (ext : ExtFS) : RNode → Prop
  | .dir cs => forestOK ext cs
  | .file _ size => 0 ≤ size ∧ size ≤ 2 ^ 51
  | .copy src => ext.isFile src = true

/-- Payload validity of an unnamed forest. -/
def forestOK (ext : ExtFS) : List RNode → Prop
  | [] => True
  | n :: ns => treeOK ext n ∧ forestOK ext ns
end

/-- Validity of one size category: the inclusive size range is sensible
and sizes stay below 2^51, where the binary64 model of the fill
computation is exact enough. -/
def catOK (cat : SizeCat) : Prop :=
  0 ≤ cat.catMin ∧ cat.catMin ≤ cat.catMax ∧ cat.catMax ≤ 2 ^ 51

/-- A valid configuration: all four size categories are sensible, the
compression percentage lies in 0..100 (main rejects the rest) and a
positive percentage comes with a positive blockSize. -/
def cfgOK (cfg : GenCfg) : Prop :=
  catOK cfg.huge ∧ catOK cfg.large ∧ catOK cfg.medium ∧ catOK cfg.small ∧
  0 ≤ cfg.percentage ∧ cfg.percentage ≤ 100 ∧
  (0 < cfg.percentage → 1 ≤ cfg.blockSize)

mutual
/-- The disk state holds exactly what verification expects of a subtree:
the directory exists, every generated file holds the concatenation of
its regenerated chunks, every copy holds the source content. -/
def readyN {σ : Type} (R : RNG σ) (cfg : GenCfg) (ext : ExtFS) (fs : FS) :
    NNode → Prop
  | .dir p cs => p ∈ fs.dirs ∧ readyF R cfg ext fs cs
  | .file p seed size => flookup fs p =
      some (generateChunks R seed size cfg.percentage cfg.blockSize).flatten
  | .copy p src => flookup fs p = some (ext.content src)

/-- Readiness of a named forest. -/
def readyF {σ : Type} (R : RNG σ) (cfg : GenCfg) (ext : ExtFS) (fs : FS) :
    List NNode → Prop
  | [] => True
  | n :: ns => readyN R cfg ext fs n ∧ readyF R cfg ext fs ns
end

/-- A file whose content is exactly the concatenation of the expected
chunks passes every verifyChunk comparison. -/
theorem verifyChunksLoop_self : ∀ (L : List (List ℕ)),
    verifyChunksLoop L L.flatten = .ok true := by
  intro L
  induction L with
  | nil => rfl
  | cons c cs ih =>
    rw [List.flatten_cons, verifyChunksLoop,
      if_pos (List.take_left c cs.flatten), List.drop_left]
    exact ih

theorem forestOK_mem {ext : ExtFS} : ∀ {cs : List RNode},
    forestOK ext cs → ∀ n ∈ cs, treeOK ext n := by
  intro cs
  induction cs with
  | nil =>
    intro _ n hn
    cases hn
  | cons a as ih =>
    intro h n hn
    rw [forestOK] at h
    rcases List.mem_cons.mp hn with hn | hn
    · subst hn
      exact h.1
    · exact ih h.2 n hn

theorem forestOK_append {ext : ExtFS} : ∀ {l1 l2 : List RNode},
    forestOK ext l1 → forestOK ext l2 → forestOK ext (l1 ++ l2) := by
  intro l1
  induction l1 with
  | nil =>
    intro l2 _ h2
    exact h2
  | cons a as ih =>
    intro l2 h1 h2
    rw [forestOK] at h1
    rw [List.cons_append, forestOK]
    exact ⟨h1.1, ih h1.2 h2⟩

theorem treeOK_emptyDir (ext : ExtFS) : treeOK ext (.dir []) := by
  rw [treeOK, forestOK]
  trivial

theorem forestOK_getD {ext : ExtFS} {cs : List RNode}
    (h : forestOK ext cs) (i : ℕ) : treeOK ext (cs.getD i (.dir [])) := by
  by_cases hb : i < cs.length
  · have hmem : cs.getD i (.dir []) ∈ cs := by
      simp only [List.getD_eq_getElem?_getD, List.getElem?_eq_getElem hb,
        Option.getD_some]
      exact List.getElem_mem hb
    exact forestOK_mem h _ hmem
  · rw [List.getD_eq_getElem?_getD, List.getElem?_eq_none (by omega)]
    exact treeOK_emptyDir ext

theorem forestOK_set {ext : ExtFS} : ∀ (cs : List RNode) (i : ℕ) (y : RNode),
    forestOK ext cs → treeOK ext y → forestOK ext (cs.set i y) := by
  intro cs
  induction cs with
  | nil =>
    intro i y h _
    exact h
  | cons a as ih =>
    intro i y h hy
    rw [forestOK] at h
    cases i with
    | zero =>
      rw [List.set_cons_zero, forestOK]
      exact ⟨hy, h.2⟩
    | succ k =>
      rw [List.set_cons_succ, forestOK]
      exact ⟨h.1, ih k y h.2 hy⟩

theorem treeOK_appendChild {ext : ExtFS} : ∀ (p : TPos) (t node : RNode),
    treeOK ext t → treeOK ext node → treeOK ext (appendChild t p node) := by
  intro p
  induction p with
  | nil =>
    intro t node ht hn
    cases t with
    | dir cs =>
      rw [appendChild, treeOK]
      rw [treeOK] at ht
      refine forestOK_append ht ?_
      rw [forestOK, forestOK]
      exact ⟨hn, trivial⟩
    | file seed size => exact ht
    | copy src => exact ht
  | cons i rest ih =>
    intro t node ht hn
    cases t with
    | dir cs =>
      rw [appendChild, treeOK]
      rw [treeOK] at ht
      exact forestOK_set cs i _ ht (ih _ node (forestOK_getD ht i) hn)
    | file seed size => exact ht
    | copy src => exact ht

theorem treeOK_attachAt {σ : Type} {ext : ExtFS} (maxD : ℤ) (node : RNode)
    (p : TPos) {st : BuildState σ} (s2 : σ) (h : treeOK ext st.root)
    (hn : treeOK ext node) : treeOK ext (attachAt maxD node p st s2).root := by
  unfold attachAt
  split_ifs <;> exact treeOK_appendChild _ _ _ h hn

theorem treeOK_attach {σ : Type} {ext : ExtFS} (R : RNG σ) (maxD : ℤ)
    (node : RNode) {st : BuildState σ} (h : treeOK ext st.root)
    (hn : treeOK ext node) : treeOK ext (attach R maxD node st).root := by
  unfold attach
  exact treeOK_attachAt maxD node _ _ h hn

theorem treeOK_createDirs {σ : Type} {ext : ExtFS} (R : RNG σ) (maxD : ℤ) :
    ∀ (n : ℕ) {st : BuildState σ}, treeOK ext st.root →
      treeOK ext (createDirs R maxD n st).root := by
  intro n
  induction n with
  | zero => intro st h; exact h
  | succ k ih =>
    intro st h
    exact ih (treeOK_attach R maxD _ h (treeOK_emptyDir ext))

theorem treeOK_attachN {σ : Type} {ext : ExtFS} (R : RNG σ) (maxD : ℤ)
    (node : RNode) (hn : treeOK ext node) : ∀ (n : ℕ) {st : BuildState σ},
      treeOK ext st.root → treeOK ext (attachN R maxD node n st).root := by
  intro n
  induction n with
  | zero => intro st h; exact h
  | succ k ih =>
    intro st h
    exact ih (treeOK_attach R maxD _ h hn)

theorem baseAttach_size_bounds {σ : Type} (R : RNG σ) (maxD : ℤ)
    {cat : SizeCat} (st : BuildState σ) (hcat : catOK cat) :
    0 ≤ (baseAttach R maxD cat st).2.1 ∧
    (baseAttach R maxD cat st).2.1 ≤ 2 ^ 51 := by
  unfold baseAttach
  dsimp only
  have h := R.randIntegers_mem (R.randomSeedFn st.rng).2 cat.catMin
    cat.catMax hcat.2.1
  exact ⟨le_trans hcat.1 h.1, le_trans h.2 hcat.2.2⟩

theorem treeOK_baseAttach_file {σ : Type} (ext : ExtFS) (R : RNG σ)
    (maxD : ℤ) {cat : SizeCat} (st : BuildState σ) (hcat : catOK cat) :
    treeOK ext (.file (baseAttach R maxD cat st).1
      (baseAttach R maxD cat st).2.1) := by
  rw [treeOK]
  exact baseAttach_size_bounds R maxD st hcat

theorem treeOK_baseAttach {σ : Type} {ext : ExtFS} (R : RNG σ) (maxD : ℤ)
    {cat : SizeCat} (hcat : catOK cat) {st : BuildState σ}
    (h : treeOK ext st.root) :
    treeOK ext (baseAttach R maxD cat st).2.2.root := by
  have hf := treeOK_baseAttach_file ext R maxD st hcat
  unfold baseAttach at hf ⊢
  dsimp only at hf ⊢
  exact treeOK_attach R maxD _ h hf

theorem treeOK_fileStep {σ : Type} {ext : ExtFS} (R : RNG σ) (maxD : ℤ)
    {cat : SizeCat} (hcat : catOK cat) (nf nc nl : ℤ) {st : BuildState σ}
    (h : treeOK ext st.root) :
    treeOK ext (fileStep R maxD cat nf nc nl st).2.2.2.root := by
  have hB := treeOK_baseAttach R maxD hcat h
  have hF := treeOK_baseAttach_file ext R maxD st hcat
  unfold fileStep
  rcases hBA : baseAttach R maxD cat st with ⟨seed, size, st1⟩
  rw [hBA] at hB hF
  dsimp only at hB hF ⊢
  rcases hCD : cloneDecision R (nf - 1) nc nl st1.rng with
    ⟨copies, nc2, nl2, s3⟩
  dsimp only
  exact treeOK_attachN R maxD _ hF _ hB

theorem treeOK_createFilesLoop {σ : Type} {ext : ExtFS} (R : RNG σ)
    (maxD : ℤ) {cat : SizeCat} (hcat : catOK cat) :
    ∀ (nf nc nl : ℤ) (st : BuildState σ), treeOK ext st.root →
      treeOK ext (createFilesLoop R maxD cat nf nc nl st).root := by
  intro nf nc nl st
  induction nf, nc, nl, st using createFilesLoop.induct R maxD cat with
  | case1 nf nc nl st hnf =>
    intro h
    rw [createFilesLoop_nonpos R maxD cat _ _ _ hnf]
    exact h
  | case2 nf nc nl st hnf ih =>
    intro h
    rw [createFilesLoop, if_neg hnf]
    exact ih (treeOK_fileStep R maxD hcat nf nc nl h)

theorem treeOK_copyLoop {σ : Type} {ext : ExtFS} (R : RNG σ) (maxD : ℤ)
    {fl : List String} (hfl : ∀ x ∈ fl, ext.isFile x = true)
    (hne : fl ≠ []) : ∀ (n : ℕ) {st : BuildState σ}, treeOK ext st.root →
      treeOK ext (copyLoop R maxD fl n st).root := by
  intro n
  induction n with
  | zero => intro st h; exact h
  | succ k ih =>
    intro st h
    refine ih (treeOK_attach R maxD _ h ?_)
    rw [treeOK]
    have hlen : 0 < fl.length := List.length_pos.mpr hne
    have hi := R.randint_lt st.rng fl.length hlen
    have hmem : fl.getD (R.randintFn st.rng fl.length).1 "" ∈ fl := by
      simp only [List.getD_eq_getElem?_getD, List.getElem?_eq_getElem hi,
        Option.getD_some]
      exact List.getElem_mem hi
    exact hfl _ hmem

theorem poolPop_root {σ : Type} (st : BuildState σ) :
    (poolPop st).root = st.root := by
  unfold poolPop
  split_ifs <;> rfl

theorem treeOK_createFiles {σ : Type} {ext : ExtFS} (R : RNG σ) (maxD : ℤ)
    {cat : SizeCat} (hcat : catOK cat) {st st2 : BuildState σ}
    (h : treeOK ext st.root) (he : createFiles R maxD cat st = .ok st2) :
    treeOK ext st2.root := by
  unfold createFiles at he
  by_cases hc : (cat.numCoalescent > cat.num ∨ cat.coalescent > cat.num)
  · rw [if_pos hc] at he
    cases he
  · rw [if_neg hc] at he
    cases he
    exact treeOK_createFilesLoop R maxD hcat _ _ _ _ h

theorem treeOK_createCopies {σ : Type} {ext : ExtFS} (R : RNG σ)
    (cfg : GenCfg) {st st2 : BuildState σ} (h : treeOK ext st.root)
    (he : createCopies R cfg ext st = .ok st2) : treeOK ext st2.root := by
  unfold createCopies at he
  by_cases hc1 : cfg.copiedNum = 0
  · rw [if_pos hc1] at he
    cases he
    exact h
  · rw [if_neg hc1] at he
    by_cases hc2 : ((ext.walk cfg.copiedSourceDir).filter ext.isFile) = []
    · rw [if_pos hc2] at he
      cases he
    · rw [if_neg hc2] at he
      cases he
      refine treeOK_copyLoop R cfg.maxDepth ?_ hc2 _ h
      intro x hx
      exact List.of_mem_filter hx

theorem treeOK_initTree {σ : Type} {ext : ExtFS} (R : RNG σ) (cfg : GenCfg)
    {st : BuildState σ} (hcfg : cfgOK cfg)
    (he : initTree R cfg ext = .ok st) : treeOK ext st.root := by
  unfold initTree at he
  split_ifs at he with hmd
  · revert he
    cases pyStrAddInt ("MaxDirDepth must be positive: ") cfg.maxDepth <;>
      intro he <;> cases he
  · unfold createNodes at he
    have h0 : treeOK ext
        ((⟨.dir [], [[]], R.initFn cfg.randseed⟩ : BuildState σ)).root :=
      treeOK_emptyDir ext
    have h1 : treeOK ext (poolPop (createDirs R cfg.maxDepth
        cfg.dirsNum.toNat
        (⟨.dir [], [[]], R.initFn cfg.randseed⟩ : BuildState σ))).root := by
      rw [poolPop_root]
      exact treeOK_createDirs R cfg.maxDepth cfg.dirsNum.toNat h0
    rcases h3 : createFiles R cfg.maxDepth cfg.huge
        (poolPop (createDirs R cfg.maxDepth cfg.dirsNum.toNat
          (⟨.dir [], [[]], R.initFn cfg.randseed⟩ : BuildState σ))) with
      e | st3
    all_goals rw [h3] at he
    · rw [exbind_error] at he
      cases he
    rw [exbind_ok] at he
    have h3OK := treeOK_createFiles R cfg.maxDepth hcfg.1 h1 h3
    rcases h4 : createFiles R cfg.maxDepth cfg.large st3 with e | st4
    all_goals rw [h4] at he
    · rw [exbind_error] at he
      cases he
    rw [exbind_ok] at he
    have h4OK := treeOK_createFiles R cfg.maxDepth hcfg.2.1 h3OK h4
    rcases h5 : createFiles R cfg.maxDepth cfg.medium st4 with e | st5
    all_goals rw [h5] at he
    · rw [exbind_error] at he
      cases he
    rw [exbind_ok] at he
    have h5OK := treeOK_createFiles R cfg.maxDepth hcfg.2.2.1 h4OK h5
    rcases h6 : createFiles R cfg.maxDepth cfg.small st5 with e | st6
    all_goals rw [h6] at he
    · rw [exbind_error] at he
      cases he
    rw [exbind_ok] at he
    have h6OK := treeOK_createFiles R cfg.maxDepth hcfg.2.2.2.1 h5OK h6
    exact treeOK_createCopies R cfg h6OK he

mutual
/-- Naming keeps the node payloads, so a valid subtree names to a valid
named subtree. -/
theorem nameNode_good (ext : ExtFS) (pfx : String) :
    ∀ (pp : FPath) (c : ℕ) (t : RNode), treeOK ext t →
      goodN ext (nameNode pfx pp c t).1
  | pp, c, .dir cs, h => by
    rw [nameNode]
    rcases hF : nameForest pfx (pp ++ [pfx ++ natToStr c]) (c + 1) cs with
      ⟨cs2, c2⟩
    dsimp only
    rw [goodN]
    have hg := nameForest_good ext pfx (pp ++ [pfx ++ natToStr c]) (c + 1)
      cs (by rw [treeOK] at h; exact h)
    rw [hF] at hg
    exact hg
  | pp, c, .file seed size, h => by
    rw [nameNode]
    dsimp only
    rw [goodN]
    rw [treeOK] at h
    exact h
  | pp, c, .copy src, h => by
    rw [nameNode]
    dsimp only
    rw [goodN]
    rw [treeOK] at h
    exact h

/-- Forest version of nameNode_good. -/
theorem nameForest_good (ext : ExtFS) (pfx : String) :
    ∀ (pp : FPath) (c : ℕ) (cs : List RNode), forestOK ext cs →
      goodF ext (nameForest pfx pp c cs).1
  | pp, c, [], _ => by
    rw [nameForest]
    dsimp only
    rw [goodF]
    trivial
  | pp, c, n :: ns, h => by
    rw [forestOK] at h
    rw [nameForest]
    rcases hN : nameNode pfx pp c n with ⟨n2, c2⟩
    dsimp only
    rcases hF : nameForest pfx pp c2 ns with ⟨ns2, c3⟩
    dsimp only
    rw [goodF]
    have h1 := nameNode_good ext pfx pp c n h.1
    rw [hN] at h1
    have h2 := nameForest_good ext pfx pp c2 ns h.2
    rw [hF] at h2
    exact ⟨h1, h2⟩
end

mutual
/-- The Namer hands out strictly increasing counters in DFS order: the
subtree rooted after counter c uses names c, ..., c2 - 1 and every
regular-file path of the named subtree ends in namePrefix followed by
one of these counters. -/
theorem nameNode_paths (pfx : String) : ∀ (pp : FPath) (c : ℕ) (t : RNode),
    c < (nameNode pfx pp c t).2 ∧
    ∀ q ∈ fpathsN (nameNode pfx pp c t).1, ∃ k r, c ≤ k ∧
      k < (nameNode pfx pp c t).2 ∧ q = r ++ [pfx ++ natToStr k]
  | pp, c, .dir cs => by
    rw [nameNode]
    rcases hF : nameForest pfx (pp ++ [pfx ++ natToStr c]) (c + 1) cs with
      ⟨cs2, c2⟩
    dsimp only
    have hP := nameForest_paths pfx (pp ++ [pfx ++ natToStr c]) (c + 1) cs
    rw [hF] at hP
    dsimp only at hP
    constructor
    · omega
    · intro q hq
      rw [fpathsN] at hq
      obtain ⟨k, r, hk1, hk2, hk3⟩ := hP.2 q hq
      exact ⟨k, r, by omega, hk2, hk3⟩
  | pp, c, .file seed size => by
    rw [nameNode]
    dsimp only
    refine ⟨by omega, ?_⟩
    intro q hq
    rw [fpathsN, List.mem_singleton] at hq
    exact ⟨c, pp, le_refl c, by omega, hq⟩
  | pp, c, .copy src => by
    rw [nameNode]
    dsimp only
    refine ⟨by omega, ?_⟩
    intro q hq
    rw [fpathsN, List.mem_singleton] at hq
    exact ⟨c, pp, le_refl c, by omega, hq⟩

/-- Forest version of nameNode_paths. -/
theorem nameForest_paths (pfx : String) :
    ∀ (pp : FPath) (c : ℕ) (cs : List RNode),
    c ≤ (nameForest pfx pp c cs).2 ∧
    ∀ q ∈ fpathsF (nameForest pfx pp c cs).1, ∃ k r, c ≤ k ∧
      k < (nameForest pfx pp c cs).2 ∧ q = r ++ [pfx ++ natToStr k]
  | pp, c, [] => by
    rw [nameForest]
    dsimp only
    refine ⟨le_refl c, ?_⟩
    intro q hq
    rw [fpathsF] at hq
    cases hq
  | pp, c, n :: ns => by
    rw [nameForest]
    rcases hN : nameNode pfx pp c n with ⟨n2, c2⟩
    dsimp only
    rcases hF : nameForest pfx pp c2 ns with ⟨ns2, c3⟩
    dsimp only
    have h1 := nameNode_paths pfx pp c n
    rw [hN] at h1
    dsimp only at h1
    have h2 := nameForest_paths pfx pp c2 ns
    rw [hF] at h2
    dsimp only at h2
    refine ⟨by omega, ?_⟩
    intro q hq
    rw [fpathsF, List.mem_append] at hq
    rcases hq with hq | hq
    · obtain ⟨k, r, hk1, hk2, hk3⟩ := h1.2 q hq
      exact ⟨k, r, hk1, by omega, hk3⟩
    · obtain ⟨k, r, hk1, hk2, hk3⟩ := h2.2 q hq
      exact ⟨k, r, by omega, hk2, hk3⟩
end

/-- Paths tagged with different counters differ. -/
theorem tagPath_ne {pfx : String} {k1 k2 : ℕ} {r1 r2 : FPath}
    (h : k1 ≠ k2) :
    r1 ++ [pfx ++ natToStr k1] ≠ r2 ++ [pfx ++ natToStr k2] := by
  intro he
  have h1 := congrArg List.getLast? he
  rw [List.getLast?_concat, List.getLast?_concat] at h1
  have h2 : pfx ++ natToStr k1 = pfx ++ natToStr k2 := Option.some.inj h1
  have h3 := congrArg String.data h2
  rw [String.data_append, String.data_append] at h3
  exact h (natToStr_inj (String.ext (List.append_cancel_left h3)))

mutual
/-- All regular-file paths of a named subtree are pairwise distinct: the
global DFS counter gives every node a distinct final path component. -/
theorem nameNode_distinct (pfx : String) :
    ∀ (pp : FPath) (c : ℕ) (t : RNode),
      List.Pairwise Ne (fpathsN (nameNode pfx pp c t).1)
  | pp, c, .dir cs => by
    rw [nameNode]
    rcases hF : nameForest pfx (pp ++ [pfx ++ natToStr c]) (c + 1) cs with
      ⟨cs2, c2⟩
    dsimp only
    rw [fpathsN]
    have hd := nameForest_distinct pfx (pp ++ [pfx ++ natToStr c]) (c + 1) cs
    rw [hF] at hd
    exact hd
  | pp, c, .file seed size => by
    rw [nameNode]
    dsimp only
    rw [fpathsN]
    exact List.pairwise_singleton _ _
  | pp, c, .copy src => by
    rw [nameNode]
    dsimp only
    rw [fpathsN]
    exact List.pairwise_singleton _ _

/-- Forest version of nameNode_distinct. -/
theorem nameForest_distinct (pfx : String) :
    ∀ (pp : FPath) (c : ℕ) (cs : List RNode),
      List.Pairwise Ne (fpathsF (nameForest pfx pp c cs).1)
  | pp, c, [] => by
    rw [nameForest]
    dsimp only
    rw [fpathsF]
    exact List.Pairwise.nil
  | pp, c, n :: ns => by
    rw [nameForest]
    rcases hN : nameNode pfx pp c n with ⟨n2, c2⟩
    dsimp only
    rcases hF : nameForest pfx pp c2 ns with ⟨ns2, c3⟩
    dsimp only
    rw [fpathsF, List.pairwise_append]
    have hd1 := nameNode_distinct pfx pp c n
    rw [hN] at hd1
    have hd2 := nameForest_distinct pfx pp c2 ns
    rw [hF] at hd2
    have h1 := nameNode_paths pfx pp c n
    rw [hN] at h1
    dsimp only at h1
    have h2 := nameForest_paths pfx pp c2 ns
    rw [hF] at h2
    dsimp only at h2
    refine ⟨hd1, hd2, ?_⟩
    intro a ha b hb
    obtain ⟨k1, r1, hk11, hk12, hk13⟩ := h1.2 a ha
    obtain ⟨k2, r2, hk21, hk22, hk23⟩ := h2.2 b hb
    rw [hk13, hk23]
    exact tagPath_ne (by omega)
end

mutual
/-- Writing a subtree touches only its own regular-file paths and only
ever adds directories. -/
theorem writeNode_frame {σ : Type} (R : RNG σ) (cfg : GenCfg) (ext : ExtFS) :
    ∀ (fs : FS) (n : NNode) (fs2 : FS),
      writeNode R cfg ext fs n = .ok fs2 →
      (∀ q, q ∉ fpathsN n → flookup fs2 q = flookup fs q) ∧
      (∀ d, d ∈ fs.dirs → d ∈ fs2.dirs)
  | fs, .dir p cs, fs2, he => by
    rw [writeNode] at he
    have h := writeList_frame R cfg ext (fsMkdir fs p) cs fs2 he
    constructor
    · intro q hq
      rw [fpathsN] at hq
      rw [h.1 q hq]
      rfl
    · intro d hd
      refine h.2 d ?_
      unfold fsMkdir
      exact List.mem_append.mpr (Or.inl hd)
  | fs, .file p seed size, fs2, he => by
    rw [writeNode] at he
    split_ifs at he with hts
    · exfalso
      simp [pyWriteStrToBinaryFile] at he
    · cases he
      constructor
      · intro q hq
        rw [fpathsN, List.mem_singleton] at hq
        exact flookup_fsWrite_ne fs p q _ hq
      · intro d hd
        exact hd
  | fs, .copy p src, fs2, he => by
    rw [writeNode] at he
    cases he
    constructor
    · intro q hq
      rw [fpathsN, List.mem_singleton] at hq
      exact flookup_fsWrite_ne fs p q _ hq
    · intro d hd
      exact hd

/-- Forest version of writeNode_frame. -/
theorem writeList_frame {σ : Type} (R : RNG σ) (cfg : GenCfg) (ext : ExtFS) :
    ∀ (fs : FS) (ns : List NNode) (fs2 : FS),
      writeList R cfg ext fs ns = .ok fs2 →
      (∀ q, q ∉ fpathsF ns → flookup fs2 q = flookup fs q) ∧
      (∀ d, d ∈ fs.dirs → d ∈ fs2.dirs)
  | fs, [], fs2, he => by
    rw [writeList] at he
    cases he
    exact ⟨fun q _ => rfl, fun d hd => hd⟩
  | fs, n :: ns, fs2, he => by
    rw [writeList] at he
    rcases hw : writeNode R cfg ext fs n with e | fsM
    all_goals rw [hw] at he
    · dsimp only at he
      cases he
    dsimp only at he
    have h1 := writeNode_frame R cfg ext fs n fsM hw
    have h2 := writeList_frame R cfg ext fsM ns fs2 he
    constructor
    · intro q hq
      rw [fpathsF, List.mem_append] at hq
      rw [h2.1 q (fun hc => hq (Or.inr hc)), h1.1 q (fun hc => hq (Or.inl hc))]
    · intro d hd
      exact h2.2 d (h1.2 d hd)
end

mutual
/-- Readiness only depends on the file contents at the subtree's own
paths and on the directory set being at least as large. -/
theorem readyN_mono {σ : Type} (R : RNG σ) (cfg : GenCfg) (ext : ExtFS)
    {fs fs2 : FS} : ∀ (n : NNode), readyN R cfg ext fs n →
      (∀ q ∈ fpathsN n, flookup fs2 q = flookup fs q) →
      (∀ d, d ∈ fs.dirs → d ∈ fs2.dirs) → readyN R cfg ext fs2 n
  | .dir p cs, hr, hagree, hdirs => by
    rw [readyN] at hr ⊢
    refine ⟨hdirs p hr.1, ?_⟩
    refine readyF_mono R cfg ext cs hr.2 ?_ hdirs
    intro q hq
    refine hagree q ?_
    rw [fpathsN]
    exact hq
  | .file p seed size, hr, hagree, _ => by
    rw [readyN] at hr ⊢
    rw [hagree p (by rw [fpathsN]; exact List.mem_singleton.mpr rfl)]
    exact hr
  | .copy p src, hr, hagree, _ => by
    rw [readyN] at hr ⊢
    rw [hagree p (by rw [fpathsN]; exact List.mem_singleton.mpr rfl)]
    exact hr

/-- Forest version of readyN_mono. -/
theorem readyF_mono {σ : Type} (R : RNG σ) (cfg : GenCfg) (ext : ExtFS)
    {fs fs2 : FS} : ∀ (ns : List NNode), readyF R cfg ext fs ns →
      (∀ q ∈ fpathsF ns, flookup fs2 q = flookup fs q) →
      (∀ d, d ∈ fs.dirs → d ∈ fs2.dirs) → readyF R cfg ext fs2 ns
  | [], _, _, _ => by
    rw [readyF]
    trivial
  | n :: ns, hr, hagree, hdirs => by
    rw [readyF] at hr ⊢
    constructor
    · refine readyN_mono R cfg ext n hr.1 ?_ hdirs
      intro q hq
      refine hagree q ?_
      rw [fpathsF, List.mem_append]
      exact Or.inl hq
    · refine readyF_mono R cfg ext ns hr.2 ?_ hdirs
      intro q hq
      refine hagree q ?_
      rw [fpathsF, List.mem_append]
      exact Or.inr hq
end

mutual
/-- A successful write leaves the disk ready for verification of the
written subtree, provided its regular-file paths are pairwise
distinct. -/
theorem writeNode_ready {σ : Type} (R : RNG σ) (cfg : GenCfg)
    (ext : ExtFS) : ∀ (fs : FS) (n : NNode) (fs2 : FS),
      List.Pairwise Ne (fpathsN n) →
      writeNode R cfg ext fs n = .ok fs2 → readyN R cfg ext fs2 n
  | fs, .dir p cs, fs2, hdist, he => by
    rw [writeNode] at he
    rw [readyN]
    have hfr := writeList_frame R cfg ext (fsMkdir fs p) cs fs2 he
    constructor
    · refine hfr.2 p ?_
      unfold fsMkdir
      exact List.mem_append.mpr (Or.inr (List.mem_singleton.mpr rfl))
    · refine writeList_ready R cfg ext _ cs fs2 ?_ he
      rw [fpathsN] at hdist
      exact hdist
  | fs, .file p seed size, fs2, hdist, he => by
    rw [writeNode] at he
    split_ifs at he with hts
    · exfalso
      simp [pyWriteStrToBinaryFile] at he
    · cases he
      rw [readyN]
      exact flookup_fsWrite_self fs p _
  | fs, .copy p src, fs2, _, he => by
    rw [writeNode] at he
    cases he
    rw [readyN]
    exact flookup_fsWrite_self fs p _

/-- Forest version of writeNode_ready. -/
theorem writeList_ready {σ : Type} (R : RNG σ) (cfg : GenCfg)
    (ext : ExtFS) : ∀ (fs : FS) (ns : List NNode) (fs2 : FS),
      List.Pairwise Ne (fpathsF ns) →
      writeList R cfg ext fs ns = .ok fs2 → readyF R cfg ext fs2 ns
  | fs, [], fs2, _, he => by
    rw [writeList] at he
    cases he
    rw [readyF]
    trivial
  | fs, n :: ns, fs2, hdist, he => by
    rw [writeList] at he
    rcases hw : writeNode R cfg ext fs n with e | fsM
    all_goals rw [hw] at he
    · dsimp only at he
      cases he
    dsimp only at he
    rw [fpathsF, List.pairwise_append] at hdist
    have hrN := writeNode_ready R cfg ext fs n fsM hdist.1 hw
    have hfr := writeList_frame R cfg ext fsM ns fs2 he
    rw [readyF]
    constructor
    · refine readyN_mono R cfg ext n hrN ?_ hfr.2
      intro q hq
      exact hfr.1 q (fun hc => (hdist.2.2 q hq q hc) rfl)
    · exact writeList_ready R cfg ext fsM ns fs2 hdist.2.1 he
end

mutual
/-- On a ready disk state, verification of a valid subtree succeeds. -/
theorem verifyNode_ok {σ : Type} (R : RNG σ) (cfg : GenCfg) (ext : ExtFS)
    {fs : FS} (hp0 : 0 ≤ cfg.percentage) (hp1 : cfg.percentage ≤ 100)
    (hb : 0 < cfg.percentage → 1 ≤ cfg.blockSize) :
    ∀ (n : NNode), goodN ext n → readyN R cfg ext fs n →
      verifyNode R cfg ext fs n = .ok true
  | .dir p cs, hg, hr => by
    rw [verifyNode]
    rw [readyN] at hr
    rw [goodN] at hg
    rw [if_pos hr.1]
    exact verifyList_ok R cfg ext hp0 hp1 hb cs hg hr.2
  | .file p seed size, hg, hr => by
    rw [verifyNode]
    rw [readyN] at hr
    rw [goodN] at hg
    rw [hr]
    dsimp only
    have hlen : ((generateChunks R seed size cfg.percentage
        cfg.blockSize).flatten).length = size.toNat := by
      unfold generateChunks
      refine (chunksLoop_lens R cfg.percentage _ hp0 hp1 ?_ size.toNat size _
        hg.1 (by omega) hg.2).2
      split_ifs with h
      · exact hb h
      · norm_num [MAX_CHUNK_SIZE]
    have hcast : (((generateChunks R seed size cfg.percentage
        cfg.blockSize).flatten).length : ℤ) = size := by
      rw [hlen]
      omega
    rw [if_neg (not_ne_iff.mpr hcast)]
    exact verifyChunksLoop_self _
  | .copy p src, hg, hr => by
    rw [verifyNode]
    rw [readyN] at hr
    rw [goodN] at hg
    rw [if_pos hg, hr]
    dsimp only
    rw [beq_self_eq_true]

/-- Forest version of verifyNode_ok. -/
theorem verifyList_ok {σ : Type} (R : RNG σ) (cfg : GenCfg) (ext : ExtFS)
    {fs : FS} (hp0 : 0 ≤ cfg.percentage) (hp1 : cfg.percentage ≤ 100)
    (hb : 0 < cfg.percentage → 1 ≤ cfg.blockSize) :
    ∀ (ns : List NNode), goodF ext ns → readyF R cfg ext fs ns →
      verifyList R cfg ext fs ns = .ok true
  | [], _, _ => by
    rw [verifyList]
  | n :: ns, hg, hr => by
    rw [verifyList]
    rw [goodF] at hg
    rw [readyF] at hr
    rw [verifyNode_ok R cfg ext hp0 hp1 hb n hg.1 hr.1]
    dsimp only
    rw [verifyList_ok R cfg ext hp0 hp1 hb ns hg.2 hr.2]
    rfl
end

theorem isDirAt_nil_dir {t : RNode} (h : isDirAt t [] = true) :
    ∃ cs, t = .dir cs := by
  cases t with
  | dir cs => exact ⟨cs, rfl⟩
  | file seed size => simp [isDirAt] at h
  | copy src => simp [isDirAt] at h

theorem buildNamed_ok {σ : Type} {R : RNG σ} {cfg : GenCfg} {ext : ExtFS}
    {rootDir : FPath} {root : NNode}
    (hb : buildNamed R cfg ext rootDir = .ok root) :
    ∃ st : BuildState σ, initTree R cfg ext = .ok st ∧
      root = nameRoot cfg.namePfx rootDir st.root := by
  unfold buildNamed at hb
  rcases hi : initTree R cfg ext with e | st
  all_goals rw [hi] at hb
  · dsimp only at hb
    cases hb
  · dsimp only at hb
    split_ifs at hb with hr
    cases hb
    exact ⟨st, rfl, rfl⟩

/-- C1: for every valid configuration (all four size categories have
0 <= min <= max <= 2^51, the compression percentage lies in 0..100 and a
positive percentage comes with a positive blockSize), whenever a
generation run for a seed and configuration succeeds, a verification run
over the untouched resulting disk state with the same seed and
configuration returns success. -/
theorem c1_round_trip {σ : Type} (R : RNG σ) (cfg : GenCfg) (ext : ExtFS)
    (rootDir : FPath) (fs0 : FS) {fs : FS} (hc : cfgOK cfg)
    (hgen : generate R cfg ext rootDir fs0 = .ok fs) :
    verifyRun R cfg ext rootDir fs = .ok true := by
  unfold generate at hgen
  rcases hb : buildNamed R cfg ext rootDir with e | root
  all_goals rw [hb] at hgen
  · dsimp only at hgen
    cases hgen
  dsimp only at hgen
  obtain ⟨st, hi, hroot⟩ := buildNamed_ok hb
  have hstOK := stOK_initTree R cfg ext hi
  obtain ⟨cs0, hcs0⟩ := isDirAt_nil_dir hstOK.1
  have htOK := treeOK_initTree R cfg hc hi
  rw [hcs0] at hroot htOK
  rw [treeOK] at htOK
  rw [nameRoot] at hroot
  subst hroot
  rw [writeRoot] at hgen
  have hfr := writeList_frame R cfg ext _ _ _ hgen
  have hroot_mem : rootDir ∈ (ensureRoot fs0 rootDir).dirs := by
    unfold ensureRoot
    split_ifs with h
    · exact h
    · unfold fsMkdir
      exact List.mem_append.mpr (Or.inr (List.mem_singleton.mpr rfl))
  have hroot_fs : rootDir ∈ fs.dirs := hfr.2 rootDir hroot_mem
  have hgood := nameForest_good ext cfg.namePfx rootDir 0 cs0 htOK
  have hdist := nameForest_distinct cfg.namePfx rootDir 0 cs0
  have hready := writeList_ready R cfg ext _ _ _ hdist hgen
  unfold verifyRun
  rw [hb]
  dsimp only
  have hens : ensureRoot fs rootDir = fs := by
    unfold ensureRoot
    rw [if_pos hroot_fs]
  rw [hens, verifyNode, if_pos hroot_fs]
  exact verifyList_ok R cfg ext hc.2.2.2.2.1 hc.2.2.2.2.2.1
    hc.2.2.2.2.2.2 _ hgood hready

theorem c1_round_trip_witness :
    cfgOK c7Cfg ∧
    generate zeroRNG c7Cfg emptyExt [] c7fsStart = .ok c7fsWritten ∧
    verifyRun zeroRNG c7Cfg emptyExt [] c7fsWritten = .ok true := by
  have hgen : generate zeroRNG c7Cfg emptyExt [] c7fsStart =
      .ok c7fsWritten := by
    unfold generate
    rw [c7_named]
    rfl
  have hc : cfgOK c7Cfg := by
    refine ⟨?_, ?_, ?_, ?_, ?_, ?_, ?_⟩ <;> first
      | exact ⟨by decide, by decide, by decide⟩
      | decide
  exact ⟨hc, hgen, c1_round_trip zeroRNG c7Cfg emptyExt [] c7fsStart hc hgen⟩

/-- One generation run as a derivation, for comparing two independent
runs of the tool: a derivation records, phase by phase, that the run
seeded its RandomState from gen.randseed, built and named the tree and
wrote it to disk.  Two separate derivations model two separate
invocations of the program. -/
inductive GenRun {σ : Type} (R : RNG σ) (cfg : GenCfg) (ext : ExtFS)
    (rootDir : FPath) (fs0 : FS) : Except PyExc FS → Prop where
  | initFail (e : PyExc) :
      initTree R cfg ext = (.error e : Except PyExc (BuildState σ)) →
      GenRun R cfg ext rootDir fs0 (.error e)
  | nameFail (st : BuildState σ) :
      initTree R cfg ext = .ok st →
      cfg.readableFilenames = false →
      GenRun R cfg ext rootDir fs0
        (.error (.genError ("ugly filenames are not currently supported")))
  | writeDone (st : BuildState σ) (r : Except PyExc FS) :
      initTree R cfg ext = .ok st →
      cfg.readableFilenames = true →
      writeRoot R cfg ext (ensureRoot fs0 rootDir)
        (nameRoot cfg.namePfx rootDir st.root) = r →
      GenRun R cfg ext rootDir fs0 r

theorem genRun_functional {σ : Type} {R : RNG σ} {cfg : GenCfg}
    {ext : ExtFS} {rootDir : FPath} {fs0 : FS} {r1 r2 : Except PyExc FS}
    (h1 : GenRun R cfg ext rootDir fs0 r1)
    (h2 : GenRun R cfg ext rootDir fs0 r2) : r1 = r2 := by
  cases h1 with
  | initFail e1 hi1 =>
    cases h2 with
    | initFail e2 hi2 =>
      rw [hi1] at hi2
      cases hi2
      rfl
    | nameFail st2 hi2 hr2 =>
      rw [hi1] at hi2
      cases hi2
    | writeDone st2 r2 hi2 hr2 hw2 =>
      rw [hi1] at hi2
      cases hi2
  | nameFail st1 hi1 hr1 =>
    cases h2 with
    | initFail e2 hi2 =>
      rw [hi1] at hi2
      cases hi2
    | nameFail st2 hi2 hr2 => rfl
    | writeDone st2 r2 hi2 hr2 hw2 =>
      rw [hr1] at hr2
      cases hr2
  | writeDone st1 r1 hi1 hr1 hw1 =>
    cases h2 with
    | initFail e2 hi2 =>
      rw [hi1] at hi2
      cases hi2
    | nameFail st2 hi2 hr2 =>
      rw [hr1] at hr2
      cases hr2
    | writeDone st2 r2 hi2 hr2 hw2 =>
      rw [hi1] at hi2
      cases hi2
      rw [← hw1, ← hw2]

/-- C2: determinism.  For a fixed seed and configuration, two
independent generation runs (two separate derivations of the run
relation) produce the same outcome; in particular, when both succeed the
two disk trees are byte-identical: the same directory set and, for every
path, the same file content (hence the same sizes). -/
theorem c2_determinism {σ : Type} (R : RNG σ) (cfg : GenCfg) (ext : ExtFS)
    (rootDir : FPath) (fs0 : FS) (r1 r2 : Except PyExc FS)
    (h1 : GenRun R cfg ext rootDir fs0 r1)
    (h2 : GenRun R cfg ext rootDir fs0 r2) :
    r1 = r2 ∧
    ∀ fs1 fs2, r1 = .ok fs1 → r2 = .ok fs2 →
      fs1.dirs = fs2.dirs ∧ ∀ p, flookup fs1 p = flookup fs2 p := by
  have he := genRun_functional h1 h2
  refine ⟨he, ?_⟩
  intro fs1 fs2 hf1 hf2
  rw [hf1, hf2] at he
  cases he
  exact ⟨rfl, fun p => rfl⟩

theorem c2_determinism_witness :
    GenRun zeroRNG c7Cfg emptyExt [] c7fsStart (.ok c7fsWritten) ∧
    ((Except.ok c7fsWritten : Except PyExc FS) = .ok c7fsWritten ∧
      ∀ fs1 fs2, (Except.ok c7fsWritten : Except PyExc FS) = .ok fs1 →
        (Except.ok c7fsWritten : Except PyExc FS) = .ok fs2 →
        fs1.dirs = fs2.dirs ∧ ∀ p, flookup fs1 p = flookup fs2 p) := by
  have hrun : GenRun zeroRNG c7Cfg emptyExt [] c7fsStart
      (.ok c7fsWritten) :=
    GenRun.writeDone _ _ c7_build rfl (by rfl)
  exact ⟨hrun,
    c2_determinism zeroRNG c7Cfg emptyExt [] c7fsStart _ _ hrun hrun⟩
